import Mathlib

/-!
# Verification of the nest configuration loader

A shallow embedding of the goph/nest configuration library: the field
definition extractor, the precedence resolution engine (Configurator.Load),
the decode protocol, primitive value coercion (processField) and the usage
renderer, together with theorems settling the specification claims.

The Go standard library functions used by the code (strconv parsing, fmt
rendering, time.Duration parsing and printing) are external collaborators;
they are modelled here as executable Lean functions following the observable
behaviour of the Go standard library. The layered key/value store (viper)
and the flag parser (pflag) are likewise external; they are modelled at the
interface boundary the specification describes: a layered store receiving
per-key overrides, flag bindings, environment bindings and defaults, and a
flag-parse outcome supplying per-flag changed bits and string values.
-/

namespace Nest

/-- Go reflect kinds of the leaf types the library can process.
The 16-bit integer kinds are present in Go but absent from processField's
switch, which is why they are tracked separately here. -/
inductive GoKind where
  | kString
  | kInt
  | kInt8
  | kInt16
  | kInt32
  | kInt64
  | kUint
  | kUint8
  | kUint16
  | kUint32
  | kUint64
  | kFloat32
  | kFloat64
  | kBool
deriving DecidableEq, Repr

/-- A Go leaf type as the library observes it through reflection: its kind,
its type name (reflect.Type.Name), its package path (reflect.Type.PkgPath),
and whether the type (or a pointer to it) implements the Decoder or
encoding.TextUnmarshaler interfaces. -/
structure GoType where
  kind : GoKind
  name : String
  pkgPath : String
  isDecoder : Bool := false
  isTextUnmarshaler : Bool := false
deriving DecidableEq, Repr

/-- The width reported by reflect.Type.Bits for each numeric kind (on a
64-bit platform, as the tests assume). Non-numeric kinds report 0. -/
def goBits : GoKind → Nat
  | .kInt => 64
  | .kInt8 => 8
  | .kInt16 => 16
  | .kInt32 => 32
  | .kInt64 => 64
  | .kUint => 64
  | .kUint8 => 8
  | .kUint16 => 16
  | .kUint32 => 32
  | .kUint64 => 64
  | .kFloat32 => 32
  | .kFloat64 => 64
  | _ => 0

/-- A Go value of one of the leaf kinds. Signed integers (including
time.Duration, which is an int64) are carried as Int, unsigned as Nat and
floating point values as the exact rational the printed literal denotes. -/
inductive GoValue where
  | vString (s : String)
  | vInt (n : Int)
  | vUint (n : Nat)
  | vFloat (q : Rat)
  | vBool (b : Bool)
deriving DecidableEq, Repr

/-- reflect.Zero for each kind. -/
def zeroValue : GoKind → GoValue
  | .kString => .vString ""
  | .kInt | .kInt8 | .kInt16 | .kInt32 | .kInt64 => .vInt 0
  | .kUint | .kUint8 | .kUint16 | .kUint32 | .kUint64 => .vUint 0
  | .kFloat32 | .kFloat64 => .vFloat 0
  | .kBool => .vBool false

/-- isZeroValueOfType from utils.go: reflect.DeepEqual of the value with the
zero value of its type. -/
def isZeroValueOfType (k : GoKind) (v : GoValue) : Bool :=
  v = zeroValue k

/-! ## Models of the Go standard library parsers (strconv, time) -/

/-- Go strconv's lower: ASCII-lowercase a byte by setting bit 0x20. -/
def lowerCh (c : Char) : Char :=
  Char.ofNat ((c.toNat % 256) ||| 32)

/-- A decimal digit character check. -/
def isDigit (c : Char) : Bool :=
  '0' ≤ c ∧ c ≤ '9'

/-- The numeric value of a digit character in bases up to 36, as in Go's
ParseUint digit dispatch. -/
def digitVal (c : Char) : Option Nat :=
  if '0' ≤ c ∧ c ≤ '9' then some (c.toNat - '0'.toNat)
  else if 'a' ≤ lowerCh c ∧ lowerCh c ≤ 'z' then some ((lowerCh c).toNat - 'a'.toNat + 10)
  else none

/-- Minimal model of Go %q quoting for the strings appearing in error
messages and usage text: backslashes and double quotes are escaped, other
characters pass through unchanged. -/
def goQuote (s : String) : String :=
  "\"" ++ ⟨s.data.foldr (fun c acc =>
    if c = '"' then '\\' :: '"' :: acc
    else if c = '\\' then '\\' :: '\\' :: acc
    else c :: acc) []⟩ ++ "\""

/-- The message carried by a Go strconv NumError. -/
def numErrorMsg (fn s reason : String) : String :=
  "strconv." ++ fn ++ ": parsing " ++ goQuote s ++ ": " ++ reason

/-- Model of Go strconv.ParseBool: the exact set of accepted literals. -/
def parseBool (s : String) : Except String Bool :=
  if s = "1" ∨ s = "t" ∨ s = "T" ∨ s = "true" ∨ s = "TRUE" ∨ s = "True" then .ok true
  else if s = "0" ∨ s = "f" ∨ s = "F" ∨ s = "false" ∨ s = "FALSE" ∨ s = "False" then .ok false
  else .error (numErrorMsg "ParseBool" s "invalid syntax")

/-- State of Go strconv's underscoreOK scan: start of number, after a digit
or base prefix, after an underscore, or after any other character. -/
inductive USaw where
  | hat
  | dig
  | und
  | other
deriving DecidableEq

/-- The character loop of Go strconv's underscoreOK. -/
def underscoreOKLoop (hex : Bool) : USaw → List Char → Bool
  | saw, [] => saw ≠ USaw.und
  | saw, c :: rest =>
    if ('0' ≤ c ∧ c ≤ '9') ∨ (hex ∧ 'a' ≤ lowerCh c ∧ lowerCh c ≤ 'f') then
      underscoreOKLoop hex USaw.dig rest
    else if c = '_' then
      if saw ≠ USaw.dig then false else underscoreOKLoop hex USaw.und rest
    else if saw = USaw.und then false
    else underscoreOKLoop hex USaw.other rest

/-- Model of Go strconv's underscoreOK: underscores may only separate
digits, or follow a base prefix. -/
def underscoreOK (s : List Char) : Bool :=
  let s1 := match s with
    | c :: rest => if c = '-' ∨ c = '+' then rest else s
    | [] => s
  match s1 with
  | '0' :: b :: rest =>
    if lowerCh b = 'b' ∨ lowerCh b = 'o' ∨ lowerCh b = 'x' then
      underscoreOKLoop (lowerCh b = 'x') USaw.dig rest
    else underscoreOKLoop false USaw.hat s1
  | _ => underscoreOKLoop false USaw.hat s1

/-- Base detection of Go strconv.ParseUint when called with base 0: a 0b/0o/0x
prefix selects binary/octal/hex, a bare leading zero selects octal, anything
else decimal. Returns the base and the remaining digit characters. -/
def base0Detect (cs : List Char) : Nat × List Char :=
  match cs with
  | '0' :: b :: rest =>
    if lowerCh b = 'b' ∧ rest ≠ [] then (2, rest)
    else if lowerCh b = 'o' ∧ rest ≠ [] then (8, rest)
    else if lowerCh b = 'x' ∧ rest ≠ [] then (16, rest)
    else (8, b :: rest)
  | ['0'] => (8, [])
  | _ => (10, cs)

/-- The accumulation loop of Go strconv.ParseUint: per-digit range checks
against the 64-bit cutoff and the requested maximum value. Underscores are
skipped here and validated afterwards, as in Go. Returns the value and
whether any underscore was seen. -/
def parseUintLoop (base maxVal cutoff : Nat) (msgSyntax msgRange : String) :
    Nat → Bool → List Char → Except String (Nat × Bool)
  | n, us, [] => .ok (n, us)
  | n, us, c :: rest =>
    if c = '_' then parseUintLoop base maxVal cutoff msgSyntax msgRange n true rest
    else
      match digitVal c with
      | none => .error msgSyntax
      | some d =>
        if d ≥ base then .error msgSyntax
        else if n ≥ cutoff then .error msgRange
        else
          let n1 := n * base + d
          if n1 > maxVal then .error msgRange
          else parseUintLoop base maxVal cutoff msgSyntax msgRange n1 us rest

/-- Model of Go strconv.ParseUint with base 0 at a given bit size, applied
to the digit characters cs; fn and s0 select the function name and input
string reported in errors (ParseInt reports the original signed input). -/
def parseUintBase0 (fn s0 : String) (cs : List Char) (bitSize : Nat) : Except String Nat :=
  let msgSyntax := numErrorMsg fn s0 "invalid syntax"
  let msgRange := numErrorMsg fn s0 "value out of range"
  if cs = [] then .error msgSyntax
  else
    let (base, digs) := base0Detect cs
    let maxVal := 2 ^ bitSize - 1
    let cutoff := (2 ^ 64 - 1) / base + 1
    match parseUintLoop base maxVal cutoff msgSyntax msgRange 0 false digs with
    | .error e => .error e
    | .ok (n, us) =>
      if us ∧ ¬underscoreOK cs then .error msgSyntax else .ok n

/-- Model of Go strconv.ParseUint(s, 0, bitSize). -/
def parseUintGo (s : String) (bitSize : Nat) : Except String Nat :=
  parseUintBase0 "ParseUint" s s.data bitSize

/-- Model of Go strconv.ParseInt(s, 0, bitSize): strip the sign, parse the
magnitude as a 64-bit unsigned number, then apply the signed range checks. -/
def parseIntGo (s : String) (bitSize : Nat) : Except String Int :=
  let msgRange := numErrorMsg "ParseInt" s "value out of range"
  match s.data with
  | [] => .error (numErrorMsg "ParseInt" s "invalid syntax")
  | c :: rest =>
    let (neg, digs) :=
      if c = '+' then (false, rest)
      else if c = '-' then (true, rest)
      else (false, c :: rest)
    match parseUintBase0 "ParseInt" s digs 64 with
    | .error e => .error e
    | .ok un =>
      let cutoff := 2 ^ (bitSize - 1)
      if ¬neg ∧ un ≥ cutoff then .error msgRange
      else if neg ∧ un > cutoff then .error msgRange
      else .ok (if neg then -(un : Int) else (un : Int))

/-- Digit characters of a natural number, most significant first, computed
with a structural fuel equal to the number itself plus one (so the
definition reduces and is easy to reason about). -/
def natToDecAux (fuel : Nat) (n : Nat) (acc : List Char) : List Char :=
  match fuel with
  | 0 => acc
  | fuel + 1 =>
    let d := Char.ofNat (n % 10 + 48)
    let n2 := n / 10
    if n2 = 0 then d :: acc else natToDecAux fuel n2 (d :: acc)

/-- Decimal rendering of a natural number, as produced by Go's fmt verbs
%v and %d for unsigned integers. -/
def natRepr (n : Nat) : String :=
  ⟨natToDecAux (n + 1) n []⟩

/-- Decimal rendering of a signed integer, as produced by Go's fmt verbs
%v and %d. -/
def intRepr (i : Int) : String :=
  if i < 0 then "-" ++ natRepr i.natAbs else natRepr i.natAbs

/-- Model of Go strconv.ParseFloat restricted to plain decimal literals
with an optional sign, fraction and exponent. The parsed value is kept as
the exact rational the literal denotes; rounding to the binary floating
point value, hex float literals, underscores and the Inf/NaN spellings are
outside the model (no claim depends on them: the loader only feeds this
parser zero-value strings and user-supplied decimal text). -/
def parseFloatLit (s : String) (bitSize : Nat) : Except String Rat :=
  let msgSyntax := numErrorMsg "ParseFloat" s "invalid syntax"
  let cs := s.data
  let (neg, cs1) :=
    match cs with
    | '+' :: rest => (false, rest)
    | '-' :: rest => (true, rest)
    | _ => (false, cs)
  let intPart := cs1.takeWhile isDigit
  let rest1 := cs1.dropWhile isDigit
  let (fracPart, rest2) :=
    match rest1 with
    | '.' :: r => (r.takeWhile isDigit, r.dropWhile isDigit)
    | _ => ([], rest1)
  if intPart = [] ∧ fracPart = [] then .error msgSyntax
  else
    let (expSign, expDigs, rest3) :=
      match rest2 with
      | 'e' :: '+' :: r => (1, r.takeWhile isDigit, r.dropWhile isDigit)
      | 'e' :: '-' :: r => (-1, r.takeWhile isDigit, r.dropWhile isDigit)
      | 'e' :: r => (1, r.takeWhile isDigit, r.dropWhile isDigit)
      | 'E' :: '+' :: r => (1, r.takeWhile isDigit, r.dropWhile isDigit)
      | 'E' :: '-' :: r => (-1, r.takeWhile isDigit, r.dropWhile isDigit)
      | 'E' :: r => (1, r.takeWhile isDigit, r.dropWhile isDigit)
      | _ => ((1 : Int), [], rest2)
    let expMarker : Bool := match rest2 with
      | 'e' :: _ => true
      | 'E' :: _ => true
      | _ => false
    if rest3 ≠ [] then .error msgSyntax
    else if expMarker ∧ expDigs = [] then .error msgSyntax
    else
      let digitsNat (l : List Char) : Nat := l.foldl (fun a c => a * 10 + (c.toNat - 48)) 0
      let m : Nat := digitsNat (intPart ++ fracPart)
      let fl := fracPart.length
      let e : Int := expSign * (digitsNat expDigs : Int)
      let v : Rat :=
        match e with
        | .ofNat k => mkRat (m * 10 ^ k) (10 ^ fl)
        | .negSucc k => mkRat m (10 ^ (fl + (k + 1)))
      let _ := bitSize
      .ok (if neg then -v else v)

/-- The unit table of Go time.ParseDuration, in nanoseconds. -/
def durationUnit : String → Option Nat
  | "ns" => some 1
  | "us" => some 1000
  | "µs" => some 1000
  | "μs" => some 1000
  | "ms" => some 1000000
  | "s" => some 1000000000
  | "m" => some 60000000000
  | "h" => some 3600000000000
  | _ => none

/-- One component of Go time.ParseDuration: leading digits, an optional
fraction, and a unit string. Consumes one component from the characters.
Returns the accumulated nanoseconds added into acc, or an error. -/
def parseDurationStep (orig : String) (cs : List Char) (acc : Nat) :
    Except String (Nat × List Char) :=
  let errMsg := "time: invalid duration " ++ orig
  match cs with
  | [] => .error errMsg
  | c :: _ =>
    if ¬(c = '.' ∨ isDigit c) then .error errMsg
    else
      let intDigs := cs.takeWhile isDigit
      let rest1 := cs.dropWhile isDigit
      let (fracDigs, rest2) :=
        match rest1 with
        | '.' :: r => (r.takeWhile isDigit, r.dropWhile isDigit)
        | _ => ([], rest1)
      if intDigs = [] ∧ fracDigs = [] then .error errMsg
      else
        let unitChars := rest2.takeWhile (fun c => ¬(c = '.' ∨ isDigit c))
        let rest3 := rest2.dropWhile (fun c => ¬(c = '.' ∨ isDigit c))
        if unitChars = [] then .error ("time: missing unit in duration " ++ orig)
        else
          match durationUnit ⟨unitChars⟩ with
          | none => .error ("time: unknown unit " ++ ⟨unitChars⟩ ++ " in duration " ++ orig)
          | some unit =>
            let v := intDigs.foldl (fun a c => a * 10 + (c.toNat - 48)) 0
            let f := fracDigs.foldl (fun a c => a * 10 + (c.toNat - 48)) 0
            let scale := 10 ^ fracDigs.length
            let add := v * unit + f * unit / scale
            .ok (acc + add, rest3)

/-- The component loop of Go time.ParseDuration, structural on the length
of the remaining characters. -/
def parseDurationLoop (orig : String) : Nat → List Char → Nat → Except String Nat
  | _, [], acc => .ok acc
  | 0, _, _ => .error ("time: invalid duration " ++ orig)
  | fuel + 1, cs, acc =>
    match parseDurationStep orig cs acc with
    | .error e => .error e
    | .ok (acc2, rest) =>
      if rest.length < cs.length then parseDurationLoop orig fuel rest acc2
      else .error ("time: invalid duration " ++ orig)

/-- Model of Go time.ParseDuration: an optional sign, then one or more
number-unit components; "0" alone is accepted. The result is the signed
nanosecond count. The 64-bit overflow checks are omitted (the magnitudes in
this development stay far below them), and the fractional contribution is
computed with truncating division in place of Go's float64 arithmetic. -/
def parseDuration (s : String) : Except String Int :=
  let (neg, cs) :=
    match s.data with
    | '-' :: rest => (true, rest)
    | '+' :: rest => (false, rest)
    | _ => (false, s.data)
  if cs = ['0'] then .ok 0
  else if cs = [] then .error ("time: invalid duration " ++ s)
  else
    match parseDurationLoop s cs.length cs 0 with
    | .error e => .error e
    | .ok d => .ok (if neg then -(d : Int) else (d : Int))

/-- The fraction formatter of Go time.Duration.String: the last prec digits
of v, most significant first, with trailing zeros omitted, together with v
shifted down by prec digits. -/
def fmtFrac (v prec : Nat) : List Char × Nat :=
  let padded := (List.range prec).map
    (fun i => Char.ofNat (v / 10 ^ (prec - 1 - i) % 10 + 48))
  ((padded.reverse.dropWhile (fun c => c = '0')).reverse, v / 10 ^ prec)

/-- Seconds-and-above part of Go time.Duration.String. -/
def durationSecString (u : Nat) : String :=
  let (fracRev, secs) := fmtFrac u 9
  let frac : String := if fracRev = [] then "" else ⟨'.' :: fracRev⟩
  let base := natRepr (secs % 60) ++ frac ++ "s"
  let mins := secs / 60
  if mins > 0 then
    let withM := natRepr (mins % 60) ++ "m" ++ base
    let hours := mins / 60
    if hours > 0 then natRepr hours ++ "h" ++ withM else withM
  else base

/-- Model of Go time.Duration.String: "0s" for zero; below one second a
single ns/µs/ms component with fraction; otherwise fractional seconds,
minutes and hours. -/
def durationString (d : Int) : String :=
  let u := d.natAbs
  let core :=
    if u = 0 then "0s"
    else if u < 1000 then natRepr u ++ "ns"
    else if u < 1000000 then
      let (fracRev, w) := fmtFrac u 3
      let frac : String := if fracRev = [] then "" else ⟨'.' :: fracRev⟩
      natRepr w ++ frac ++ "µs"
    else if u < 1000000000 then
      let (fracRev, w) := fmtFrac u 6
      let frac : String := if fracRev = [] then "" else ⟨'.' :: fracRev⟩
      natRepr w ++ frac ++ "ms"
    else durationSecString u
  if d < 0 then "-" ++ core else core

/-- Best-effort model of Go %v rendering of a float64: exact for integral
values and for values with a finite decimal expansion (the only float
renderings the loader's theorems touch are of such values); other rationals
fall back to a fraction spelling that no Go float produces. -/
def floatRepr (q : Rat) : String :=
  if q = 0 then "0"
  else if q.den = 1 then intRepr q.num
  else
    match (List.range 31).find? (fun k => q.den ∣ 10 ^ k) with
    | some k =>
      let scaled := q.num.natAbs * (10 ^ k / q.den)
      let ip := scaled / 10 ^ k
      let (fracChars, _) := fmtFrac scaled k
      let frac : String := if fracChars = [] then "" else ⟨'.' :: fracChars⟩
      (if q.num < 0 then "-" else "") ++ natRepr ip ++ frac
    | none => intRepr q.num ++ "/" ++ natRepr q.den

/-- Whether a type is the standard duration type: reflect kind Int64 with
package path "time" and name "Duration". -/
def isDurationType (t : GoType) : Bool :=
  t.kind = GoKind.kInt64 ∧ t.pkgPath = "time" ∧ t.name = "Duration"

/-- Model of fmt.Sprintf("%v", x) for the values the loader renders:
strings verbatim, booleans as true/false, integers in decimal (durations
via their String method), unsigned in decimal, floats per floatRepr. -/
def goSprintf (t : GoType) : GoValue → String
  | .vString s => s
  | .vBool b => if b then "true" else "false"
  | .vInt n => if isDurationType t then durationString n else intRepr n
  | .vUint n => natRepr n
  | .vFloat q => floatRepr q

/-! ## Naming utilities (utils.go and the split-words helper) -/

/-- isTrue from utils.go: ParseBool, with errors collapsed to false. -/
def isTrue (s : String) : Bool :=
  match parseBool s with
  | .ok b => b
  | .error _ => false

/-- lowerFirst from utils.go: the first character lower-cased. The Go
function indexes the first rune unconditionally; it is only ever applied to
exported (hence nonempty) identifiers, so the empty case is immaterial. -/
def lowerFirst (s : String) : String :=
  match s.data with
  | [] => ""
  | c :: rest => ⟨c.toLower :: rest⟩

/-- go/ast.IsExported: the identifier starts with an upper-case letter. -/
def isExported (name : String) : Bool :=
  match name.data with
  | [] => false
  | c :: _ => c.isUpper

/-- strings.ToLower for the ASCII identifiers this library manipulates,
written to reduce structurally. -/
def toLowerStr (s : String) : String :=
  ⟨s.data.map Char.toLower⟩

/-- strings.ToUpper, analogously. -/
def toUpperStr (s : String) : String :=
  ⟨s.data.map Char.toUpper⟩

/-- strings.Replace with a single-character pattern and replacement (the
only form the extractor uses: dots to dashes or underscores). -/
def replaceCharStr (s : String) (from0 to0 : Char) : String :=
  ⟨s.data.map (fun c => if c = from0 then to0 else c)⟩

/-- strings.Join over a glue string. -/
def joinGlue (glue : String) (parts : List String) : String :=
  ⟨List.intercalate glue.data (parts.map String.data)⟩

/-- The character class [A-Z] used by the split-words regular expression. -/
def isUpperAZ (c : Char) : Bool :=
  'A' ≤ c ∧ c ≤ 'Z'

/-- The tokenisation performed by the regular expression
([^A-Z]+|[A-Z][^A-Z]+|[A-Z]+) under leftmost-first matching: at each
position, a maximal run of non-upper-case characters, else one upper-case
character followed by a maximal nonempty run of non-upper-case characters,
else a maximal run of upper-case characters. -/
def splitTokensFuel : Nat → List Char → List (List Char)
  | _, [] => []
  | 0, _ :: _ => []
  | fuel + 1, c :: rest =>
    if ¬isUpperAZ c then
      (c :: rest.takeWhile (fun x => ¬isUpperAZ x)) ::
        splitTokensFuel fuel (rest.dropWhile (fun x => ¬isUpperAZ x))
    else
      match rest with
      | d :: rest2 =>
        if ¬isUpperAZ d then
          (c :: d :: rest2.takeWhile (fun x => ¬isUpperAZ x)) ::
            splitTokensFuel fuel (rest2.dropWhile (fun x => ¬isUpperAZ x))
        else
          (c :: d :: rest2.takeWhile isUpperAZ) :: splitTokensFuel fuel (rest2.dropWhile isUpperAZ)
      | [] => [[c]]

/-- The tokeniser applied with enough fuel for the whole string (every step
consumes at least one character, so the length suffices). -/
def splitTokens (cs : List Char) : List (List Char) :=
  splitTokensFuel cs.length cs

/-- splitWords from the naming utilities: tokenise the camel-cased string,
join the words with the glue string, and lower-case the result. -/
def splitWords (s glue : String) : String :=
  let words := splitTokens s.data
  if words.length < 1 then ""
  else toLowerStr (joinGlue glue (words.map (fun w => (⟨w⟩ : String))))

/-! ## Tags and field definitions -/

def TagIgnored : String := "ignored"

def TagDefault : String := "default"

def TagRequired : String := "required"

def TagSplitWords : String := "split_words"

def TagPrefixKey : String := "prefix"

def TagEnvironment : String := "env"

def TagFlag : String := "flag"

def TagUsage : String := "usage"

/-- A Go struct tag, as a key/value list; Lookup returns the first entry. -/
structure StructTag where
  entries : List (String × String)
deriving DecidableEq, Repr

/-- reflect.StructTag.Lookup. -/
def StructTag.lookup (t : StructTag) (k : String) : Option String :=
  (t.entries.find? (fun e => e.1 = k)).map (fun e => e.2)

/-- reflect.StructTag.Get: Lookup with a missing key read as "". -/
def StructTag.get (t : StructTag) (k : String) : String :=
  (t.lookup k).getD ""

/-- A schema value: a leaf of a supported kind carrying its current value, a
nested (non-decodable) struct, or a field of a structurally unsupported
kind (map, slice, chan, func, interface, complex, array) which the walk
skips. Decodable composite types are outside the model; primitive-kinded
decodable types are leaves whose GoType carries the capability flags. -/
inductive GoFieldVal where
  | leaf (t : GoType) (v : GoValue)
  | strct (fields : List (String × StructTag × GoFieldVal))
  | unsupportedLeaf

/-- The capability check canDecode from decode.go, specialised to the
statically known interface sets of a field's type: inside Load every field
is addressable and interfaceable, so the check reduces to whether the type
or its pointer type implements Decoder or encoding.TextUnmarshaler. -/
def canDecodeType (t : GoType) : Bool :=
  t.isDecoder || t.isTextUnmarshaler

/-- The behaviour of user-supplied Decode/UnmarshalText implementations: an
arbitrary function from the field's type, current value and incoming text
to a new value or an error. -/
def DecodeHook : Type :=
  GoType → GoValue → String → Except String GoValue

/-- processField from the configurator: decodable values decode themselves;
otherwise dispatch on the reflect kind — strings verbatim, signed integers
via ParseInt with base 0 at the type's bit width (except time.Duration,
which uses ParseDuration), unsigned via ParseUint, floats via ParseFloat,
booleans via ParseBool. Kinds absent from the switch (Int16 and Uint16 among
the leaf kinds) fall through and leave the field unmodified. -/
def processField (hook : DecodeHook) (t : GoType) (cur : GoValue) (value : String) :
    Except String GoValue :=
  if canDecodeType t then hook t cur value
  else
    match t.kind with
    | .kString => .ok (.vString value)
    | .kInt | .kInt8 | .kInt32 | .kInt64 =>
      if isDurationType t then
        match parseDuration value with
        | .error e => .error e
        | .ok d => .ok (.vInt d)
      else
        match parseIntGo value (goBits t.kind) with
        | .error e => .error e
        | .ok n => .ok (.vInt n)
    | .kUint | .kUint8 | .kUint32 | .kUint64 =>
      match parseUintGo value (goBits t.kind) with
      | .error e => .error e
      | .ok n => .ok (.vUint n)
    | .kFloat32 | .kFloat64 =>
      match parseFloatLit value (goBits t.kind) with
      | .error e => .error e
      | .ok q => .ok (.vFloat q)
    | .kBool =>
      match parseBool value with
      | .error e => .error e
      | .ok b => .ok (.vBool b)
    | _ => .ok cur

/-- The per-field value application step of Load: render the resolved value
to a string (done by the caller), substitute the zero-value string when it
is empty, then coerce with processField. -/
def loadApplyValue (hook : DecodeHook) (t : GoType) (cur : GoValue) (resolved : String) :
    Except String GoValue :=
  let value := if resolved = "" then goSprintf t (zeroValue t.kind) else resolved
  processField hook t cur value

/-- One extracted field definition, as in the extractor: the dot-joined
key, the field's type and a path handle to its storage location in the
record, the override/flag/env/default sources, the required flag and the
usage text. -/
structure fieldDefinition where
  key : String
  fieldType : GoType
  fieldPath : List Nat
  hasOverride : Bool := false
  overrideValue : Option GoValue := none
  hasFlag : Bool := false
  flagAlias : String := ""
  hasEnv : Bool := false
  envAlias : String := ""
  hasDefault : Bool := false
  defaultValue : String := ""
  required : Bool := false
  usage : String := ""
deriving DecidableEq, Repr

/-- The key prefix: prefix + "." unless the prefix is empty. -/
def keyPfxOf (pfx : String) : String :=
  if pfx ≠ "" then pfx ++ "." else ""

/-- The flag prefix: the prefix lower-cased with dots turned into dashes,
plus a trailing dash, unless the prefix is empty. -/
def flagPfxOf (pfx : String) : String :=
  if pfx ≠ "" then toLowerStr (replaceCharStr pfx '.' '-') ++ "-" else ""

/-- The environment prefix: the prefix lower-cased with dots turned into
underscores, plus a trailing underscore, unless the prefix is empty. -/
def envPfxOf (pfx : String) : String :=
  if pfx ≠ "" then toLowerStr (replaceCharStr pfx '.' '_') ++ "_" else ""

/-- The prefix segment the extractor derives for a sub-struct: the explicit
prefix annotation, or the field's identifier, word-split when requested. -/
def segOf (name : String) (tag : StructTag) : String :=
  match tag.lookup TagPrefixKey with
  | some value => value
  | none =>
    match tag.lookup TagSplitWords with
    | some v =>
      if isTrue v then
        let sw := splitWords name "."
        if sw ≠ "" then sw else name
      else name
    | none => name

/-- The definition the extractor builds for one leaf field: the base
record keyed and located at the field, then the override layer when the
pre-existing value is non-zero, then the flag, environment, default and
required annotations in that order. -/
def buildLeafDef (name : String) (tag : StructTag) (t : GoType) (v : GoValue) (pfx : String)
    (path : List Nat) (i : Nat) : fieldDefinition :=
  let keyPfx := keyPfxOf pfx
  let flagPfx := flagPfxOf pfx
  let envPfx := envPfxOf pfx
  let base : fieldDefinition :=
    { key := keyPfx ++ name
      fieldType := t
      fieldPath := path ++ [i]
      usage := tag.get TagUsage }
  let d1 :=
    if isZeroValueOfType t.kind v = false then
      { base with hasOverride := true, overrideValue := some v }
    else base
  let d2 :=
    match tag.lookup TagFlag with
    | some value =>
      let value2 :=
        if value = "" then
          let v0 := lowerFirst name
          match tag.lookup TagSplitWords with
          | some sv =>
            if isTrue sv then
              let sw := splitWords v0 "-"
              if sw ≠ "" then sw else v0
            else v0
          | none => v0
        else value
      { d1 with hasFlag := true, flagAlias := flagPfx ++ value2 }
    | none => d1
  let d3 :=
    match tag.lookup TagEnvironment with
    | some value =>
      if value ≠ "" then { d2 with hasEnv := true, envAlias := toUpperStr (envPfx ++ value) }
      else
        match tag.lookup TagSplitWords with
        | some sv =>
          if isTrue sv then
            let sw := splitWords name "_"
            if sw ≠ "" then { d2 with hasEnv := true, envAlias := toUpperStr (envPfx ++ sw) }
            else { d2 with hasEnv := true }
          else { d2 with hasEnv := true, envAlias := toUpperStr (envPfx ++ name) }
        | none => { d2 with hasEnv := true, envAlias := toUpperStr (envPfx ++ name) }
    | none => d2
  let d4 :=
    match tag.lookup TagDefault with
    | some value => { d3 with hasDefault := true, defaultValue := value }
    | none => d3
  let d5 :=
    match tag.lookup TagRequired with
    | some value => if isTrue value then { d4 with required := true } else d4
    | none => d4
  d5

mutual

/-- getDefinitionsForStruct: walk the struct's fields in declaration order,
skipping unexported, ignored and unsupported fields, recursing into
non-decodable sub-structs with a derived prefix, and emitting one
definition per remaining leaf. The index argument tracks the field's
position for the storage path. -/
def getDefinitionsForStruct :
    List (String × StructTag × GoFieldVal) → String → List Nat → Nat → List fieldDefinition
  | [], _, _, _ => []
  | (name, tag, val) :: rest, pfx, path, i =>
    extractOneField name tag val pfx path i ++ getDefinitionsForStruct rest pfx path (i + 1)

/-- The body of the extractor's loop for a single struct field. -/
def extractOneField (name : String) (tag : StructTag) (val : GoFieldVal) (pfx : String)
    (path : List Nat) (i : Nat) : List fieldDefinition :=
  if isExported name = false then []
  else if (match tag.lookup TagIgnored with | some v => isTrue v | none => false) then []
  else
    match val with
    | .strct flds =>
      getDefinitionsForStruct flds (keyPfxOf pfx ++ segOf name tag) (path ++ [i]) 0
    | .unsupportedLeaf => []
    | .leaf t v => [buildLeafDef name tag t v pfx path i]

end

/-- getDefinitions: extract the definition list for a root record. -/
def getDefinitions (fields : List (String × StructTag × GoFieldVal)) : List fieldDefinition :=
  getDefinitionsForStruct fields "" [] 0

/-! ## The external layered store and flag parser, at their interface
boundary

The store (viper) and the flag parser (pflag) are out-of-scope external
collaborators; the definitions below model exactly the interface the
loader uses: per-key overrides, flag bindings, environment bindings and
defaults, with lookup precedence override > changed flag > bound
environment variable > default > bound flag's registered default value
(the loader registers every flag with default "", which is how a
bound-but-unset flag resolves to the empty string). -/

/-- A value held by the layered store: an override keeps the Go value and
its type (needed to render it back to text); flag, environment and default
layers hold strings. -/
inductive VVal where
  | typed (t : GoType) (v : GoValue)
  | str (s : String)
deriving DecidableEq, Repr

/-- fmt.Sprintf("%v", value) on a value fetched from the store. -/
def sprintfVVal : VVal → String
  | .typed t v => goSprintf t v
  | .str s => s

/-- First-match lookup in an association list (later writes are consed in
front, so this realises overwrite semantics). -/
def lookupAssoc {α : Type} (l : List (String × α)) (k : String) : Option α :=
  (l.find? (fun e => e.1 = k)).map (fun e => e.2)

/-- The layered store's registration state. -/
structure ViperStore where
  overrides : List (String × VVal) := []
  pflags : List (String × String) := []
  envBinds : List (String × String) := []
  defaults : List (String × String) := []
deriving Repr

/-- viper.Set. -/
def ViperStore.set (st : ViperStore) (k : String) (v : VVal) : ViperStore :=
  { st with overrides := (k, v) :: st.overrides }

/-- viper.BindPFlag: bind the key to a declared flag's name. -/
def ViperStore.bindPFlag (st : ViperStore) (k fl : String) : ViperStore :=
  { st with pflags := (k, fl) :: st.pflags }

/-- viper.BindEnv: bind the key to an environment variable name. -/
def ViperStore.bindEnv (st : ViperStore) (k ev : String) : ViperStore :=
  { st with envBinds := (k, ev) :: st.envBinds }

/-- viper.SetDefault. -/
def ViperStore.setDefault (st : ViperStore) (k v : String) : ViperStore :=
  { st with defaults := (k, v) :: st.defaults }

/-- The state of the declared flags after a successful parse: whether each
flag was set on the command line, and its parsed string value. -/
structure FlagState where
  changed : String → Bool
  value : String → String

/-- The flag state in which no flag was touched (used when no flag is
declared and the parser never runs). -/
def noFlags : FlagState :=
  { changed := fun _ => false, value := fun _ => "" }

/-- The outcome of pflag's Parse over the argument vector: a flag state, a
help request, or a parse error. -/
inductive FlagParseOutcome where
  | ok (fs : FlagState)
  | help
  | err (msg : String)

/-- viper.Get through the layers, given the flag state and the process
environment. -/
def viperGet (st : ViperStore) (fs : FlagState) (env : String → Option String)
    (k : String) : Option VVal :=
  match lookupAssoc st.overrides k with
  | some v => some v
  | none =>
    match lookupAssoc st.pflags k with
    | some fl =>
      if fs.changed fl then some (VVal.str (fs.value fl))
      else
        match lookupAssoc st.envBinds k with
        | some ev =>
          match env ev with
          | some s => some (VVal.str s)
          | none =>
            match lookupAssoc st.defaults k with
            | some d => some (VVal.str d)
            | none => some (VVal.str "")
        | none =>
          match lookupAssoc st.defaults k with
          | some d => some (VVal.str d)
          | none => some (VVal.str "")
    | none =>
      match lookupAssoc st.envBinds k with
      | some ev =>
        match env ev with
        | some s => some (VVal.str s)
        | none =>
          match lookupAssoc st.defaults k with
          | some d => some (VVal.str d)
          | none => none
      | none =>
        match lookupAssoc st.defaults k with
        | some d => some (VVal.str d)
        | none => none

/-- viper.IsSet. -/
def viperIsSet (st : ViperStore) (fs : FlagState) (env : String → Option String)
    (k : String) : Bool :=
  (viperGet st fs env k).isSome

/-! ## The Configurator and Load -/

/-- The Configurator's mutable state: display name, argument vector,
environment prefix and the handle to the external store. -/
structure Configurator where
  name : String := ""
  args : List String := []
  envPfx : String := ""
  viper : ViperStore := {}

/-- mergeWithEnvPrefix: prefix + "_" + alias upper-cased, or the alias
upper-cased when no prefix is configured. -/
def mergeWithEnvPfx (envPfx s : String) : String :=
  if envPfx ≠ "" then toUpperStr (envPfx ++ "_" ++ s) else toUpperStr s

/-- The registration step of Load for one definition: route the override,
flag binding, environment binding and default of the definition into the
corresponding store layers. -/
def registerDef (envPfx : String) (st : ViperStore) (d : fieldDefinition) : ViperStore :=
  let st1 :=
    if d.hasOverride then
      st.set d.key (VVal.typed d.fieldType (d.overrideValue.getD (zeroValue d.fieldType.kind)))
    else st
  let st2 := if d.hasFlag then st1.bindPFlag d.key d.flagAlias else st1
  let st3 := if d.hasEnv then st2.bindEnv d.key (mergeWithEnvPfx envPfx d.envAlias) else st2
  if d.hasDefault then st3.setDefault d.key d.defaultValue else st3

/-- The registration loop of Load. -/
def registerDefs (envPfx : String) (defs : List fieldDefinition) (st : ViperStore) : ViperStore :=
  defs.foldl (registerDef envPfx) st

mutual

/-- Read the leaf value at a path in the record. -/
def readAtFields : List (String × StructTag × GoFieldVal) → List Nat → Option (GoType × GoValue)
  | [], _ => none
  | _, [] => none
  | (_, _, val) :: restF, i :: restP =>
    match i with
    | 0 => readInVal val restP
    | j + 1 => readAtFields restF (j :: restP)

/-- Read within one field's value: an empty remaining path addresses a
leaf, a nonempty one descends into a sub-struct. -/
def readInVal : GoFieldVal → List Nat → Option (GoType × GoValue)
  | .leaf t v, [] => some (t, v)
  | .strct flds, p :: ps => readAtFields flds (p :: ps)
  | _, _ => none

end

mutual

/-- Write the leaf value at a path in the record (the in-place update a
reflect.Value handle performs); out-of-tree paths leave it unchanged. -/
def setAtFields (fields : List (String × StructTag × GoFieldVal)) (path : List Nat)
    (v : GoValue) : List (String × StructTag × GoFieldVal) :=
  match fields, path with
  | [], _ => []
  | fs, [] => fs
  | (n, tg, val) :: restF, i :: restP =>
    match i with
    | 0 => (n, tg, setInVal val restP v) :: restF
    | j + 1 => (n, tg, val) :: setAtFields restF (j :: restP) v

/-- Write within one field's value. -/
def setInVal (val : GoFieldVal) (path : List Nat) (v : GoValue) : GoFieldVal :=
  match val, path with
  | .leaf t _, [] => .leaf t v
  | .strct flds, p :: ps => .strct (setAtFields flds (p :: ps) v)
  | other, _ => other

end

/-- The application loop of Load: for each definition, consult the store;
an unset required key fails with the required-field error, an unset
optional key is skipped, and a set key's value is rendered, empty-guarded
and coerced into the field. The record state reached so far is returned
alongside the first error (partial writes are not rolled back). -/
def applyDefs (hook : DecodeHook) (st : ViperStore) (fs : FlagState)
    (env : String → Option String) :
    List fieldDefinition → List (String × StructTag × GoFieldVal) →
    Option String × List (String × StructTag × GoFieldVal)
  | [], fields => (none, fields)
  | d :: rest, fields =>
    match viperGet st fs env d.key with
    | none =>
      if d.required then (some ("required field " ++ d.key ++ " missing value"), fields)
      else applyDefs hook st fs env rest fields
    | some vv =>
      let cur :=
        match readAtFields fields d.fieldPath with
        | some (_, v) => v
        | none => zeroValue d.fieldType.kind
      match loadApplyValue hook d.fieldType cur (sprintfVVal vv) with
      | .error e => (some e, fields)
      | .ok newV => applyDefs hook st fs env rest (setAtFields fields d.fieldPath newV)

/-- The shape of the value handed to Load, after the two reflection
checks it performs: not a pointer at all, a pointer to a non-struct, or a
pointer to a struct with the given fields. -/
inductive LoadTarget where
  | notPtr
  | ptrToNonStruct
  | ptrToStruct (fields : List (String × StructTag × GoFieldVal))

/-- How a Load call ends: normally, with an error value, with the
distinguished help sentinel, or by panicking. -/
inductive LoadOutcome where
  | ok
  | err (e : String)
  | flagHelp
  | panicked (e : String)
deriving Repr

/-- Everything observable after a Load call: its outcome, the final state
of the target record, the external store, and the configurator's name. -/
structure LoadResult where
  outcome : LoadOutcome
  target : LoadTarget
  viper : ViperStore
  name : String

/-- Configurator.Load: check the target's shape, default the display name
from the first argument (panicking when the argument vector is empty),
extract definitions, register them with the store, parse flags when any
flag was declared (surfacing ErrFlagHelp distinctly), then apply the
resolved values. -/
def load (c : Configurator) (tgt : LoadTarget) (fp : FlagParseOutcome)
    (env : String → Option String) (hook : DecodeHook) : LoadResult :=
  match tgt with
  | .notPtr =>
    { outcome := .err "value passed is not a struct pointer", target := tgt,
      viper := c.viper, name := c.name }
  | .ptrToNonStruct =>
    { outcome := .err "value passed is not a struct", target := tgt,
      viper := c.viper, name := c.name }
  | .ptrToStruct fields =>
    match (if c.name = "" then c.args.head? else some c.name) with
    | none =>
      { outcome := .panicked "runtime error: index out of range [0] with length 0",
        target := tgt, viper := c.viper, name := c.name }
    | some nm =>
      let defs := getDefinitions fields
      let st := registerDefs c.envPfx defs c.viper
      let anyFlag := defs.any (fun d => d.hasFlag)
      let continueWith (fs : FlagState) : LoadResult :=
        match applyDefs hook st fs env defs fields with
        | (some e, fields2) =>
          { outcome := .err e, target := .ptrToStruct fields2, viper := st, name := nm }
        | (none, fields2) =>
          { outcome := .ok, target := .ptrToStruct fields2, viper := st, name := nm }
      if anyFlag then
        match fp with
        | .help => { outcome := .flagHelp, target := .ptrToStruct fields, viper := st, name := nm }
        | .err e => { outcome := .err e, target := .ptrToStruct fields, viper := st, name := nm }
        | .ok fs => continueWith fs
      else continueWith noFlags

/-! ## The decode protocol (decode.go) -/

/-- What the reflection checks in decode.go can observe about a field's
value: whether Interface() may be called, whether the value is addressable,
and whether the value itself or its address asserts to the Decoder or
encoding.TextUnmarshaler interfaces. -/
structure RValue where
  canInterface : Bool := true
  canAddr : Bool := true
  valueIsDecoder : Bool := false
  addrIsDecoder : Bool := false
  valueIsTextUnmarshaler : Bool := false
  addrIsTextUnmarshaler : Bool := false
deriving DecidableEq, Repr

/-- canDecode from decode.go: guard on CanInterface, then try the Decoder
assertion on the value and (when addressable) its address, then the same
for encoding.TextUnmarshaler. -/
def canDecode (f : RValue) : Bool :=
  if !f.canInterface then false
  else
    let ok := f.valueIsDecoder
    let ok := if !ok && f.canAddr then f.addrIsDecoder else ok
    if !ok then
      let ok2 := f.valueIsTextUnmarshaler
      if !ok2 && f.canAddr then f.addrIsTextUnmarshaler else ok2
    else ok

/-- The self-decoder capability: the value (or, when addressable, a
reference to it) can be asserted to the Decoder interface; exposing a
capability presupposes the value may be accessed through Interface(). -/
def exposesDecoder (f : RValue) : Bool :=
  f.canInterface && (f.valueIsDecoder || (f.canAddr && f.addrIsDecoder))

/-- The text-unmarshaler capability, analogously. -/
def exposesTextUnmarshaler (f : RValue) : Bool :=
  f.canInterface && (f.valueIsTextUnmarshaler || (f.canAddr && f.addrIsTextUnmarshaler))

/-- What a call to decode does: invoke the value's Decode with the text,
invoke its UnmarshalText, or fail with one of the two error messages,
without invoking anything. -/
inductive DecodeResult where
  | viaDecoder (value : String)
  | viaTextUnmarshaler (value : String)
  | errorRes (msg : String)
deriving DecidableEq, Repr

/-- decode from decode.go: re-check canDecode (failing with the
"value cannot decode itself" error), then dispatch to the Decoder assertion
on the value or its address, then to the TextUnmarshaler assertion, and
fail with the defensive "failed to find a decoding type" error if neither
matches. -/
def decode (f : RValue) (value : String) : DecodeResult :=
  if ¬canDecode f then .errorRes "value cannot decode itself"
  else
    let okD := f.valueIsDecoder
    let okD := if !okD && f.canAddr then f.addrIsDecoder else okD
    if okD then .viaDecoder value
    else
      let okT := f.valueIsTextUnmarshaler
      let okT := if !okT && f.canAddr then f.addrIsTextUnmarshaler else okT
      if okT then .viaTextUnmarshaler value
      else .errorRes "failed to find a decoding type"

/-! ## The usage renderer (getUsage) -/

/-- The flag block's educated type-hint guess: booleans show no hint, the
64-bit numeric type names are shortened, other names pass through. -/
def flagTypeHint (t : GoType) : String :=
  match t.name with
  | "bool" => ""
  | "float64" => "float"
  | "int64" => "int"
  | "uint64" => "uint"
  | n => n

/-- The environment block's type-hint switch: the 64-bit numeric names are
shortened; unlike the flag block there is no case for "bool". -/
def envTypeHint (t : GoType) : String :=
  match t.name with
  | "float64" => "float"
  | "int64" => "int"
  | "uint64" => "uint"
  | n => n

/-- The trailing default annotation of a usage line: quoted via %q when the
field's type name is "string", bare via %s otherwise, empty without a
default. -/
def defaultAnnot (d : fieldDefinition) : String :=
  if d.hasDefault then
    if d.fieldType.name = "string" then " (default " ++ goQuote d.defaultValue ++ ")"
    else " (default " ++ d.defaultValue ++ ")"
  else ""

/-- The alignment marker character the renderer embeds in each line. -/
def usageMarker : Char :=
  Char.ofNat 0

/-- One pre-alignment line of the flag block. -/
def flagLineOf (d : fieldDefinition) : String :=
  let line := "      --" ++ d.flagAlias
  let hint := flagTypeHint d.fieldType
  let line := if hint ≠ "" then line ++ " " ++ hint else line
  line ++ (⟨[usageMarker]⟩ : String) ++ d.usage ++ defaultAnnot d

/-- One pre-alignment line of the environment block; the alias is merged
with the global configurator's environment prefix. -/
def envLineOf (envPfx : String) (d : fieldDefinition) : String :=
  let line := "      " ++ mergeWithEnvPfx envPfx d.envAlias
  let hint := envTypeHint d.fieldType
  let line := if hint ≠ "" then line ++ " " ++ hint else line
  line ++ (⟨[usageMarker]⟩ : String) ++ d.usage ++ defaultAnnot d

/-- Replace a line's marker with the spacing that aligns the suffix at the
block's computed column, the way the renderer's Fprintln call does. -/
def renderAligned (maxlen : Nat) (line : String) : String :=
  let pre := line.data.takeWhile (fun c => c ≠ usageMarker)
  let post := (line.data.dropWhile (fun c => c ≠ usageMarker)).drop 1
  (⟨pre⟩ : String) ++ " " ++ (⟨List.replicate (maxlen - pre.length) ' '⟩ : String) ++ " " ++
    (⟨post⟩ : String) ++ "\n"

/-- getUsage: the aligned flag and environment blocks. Lengths are counted
in characters where Go counts bytes; the difference only affects alignment
of lines holding multi-byte runes. -/
def getUsage (envPfx : String) (defs : List fieldDefinition) : String :=
  let flagLines := (defs.filter (fun d => d.hasFlag)).map flagLineOf
  let envLines := (defs.filter (fun d => d.hasEnv)).map (envLineOf envPfx)
  let sidxLen (l : String) : Nat := (l.data.takeWhile (fun c => c ≠ usageMarker)).length
  let flagMax := flagLines.foldl (fun m l => max m (sidxLen l + 1)) 0
  let envMax := envLines.foldl (fun m l => max m (sidxLen l + 1)) 0
  (if flagLines ≠ [] then
    "\n\nFLAGS:\n\n" ++ String.join (flagLines.map (renderAligned flagMax))
   else "") ++
  (if envLines ≠ [] then
    "\n\nENVIRONMENT VARIABLES:\n\n" ++ String.join (envLines.map (renderAligned envMax))
   else "")

/-! ## Auxiliary definitions for the theorems -/

/-- The record inside a struct-pointer target, when there is one. -/
def targetFields : LoadTarget → Option (List (String × StructTag × GoFieldVal))
  | .ptrToStruct fields => some fields
  | _ => none

/-- A decode hook that leaves the field unchanged; it stands in wherever
the hook is irrelevant because the types involved expose no decode
capability. -/
def trivialHook : DecodeHook :=
  fun _ cur _ => .ok cur

/-- The built-in string type as reflection reports it. -/
def stringType : GoType :=
  { kind := .kString, name := "string", pkgPath := "" }

/-- The built-in int type. -/
def intType : GoType :=
  { kind := .kInt, name := "int", pkgPath := "" }

/-- The built-in int8 type. -/
def int8Type : GoType :=
  { kind := .kInt8, name := "int8", pkgPath := "" }

/-- The built-in int16 type. -/
def int16Type : GoType :=
  { kind := .kInt16, name := "int16", pkgPath := "" }

/-- The built-in uint16 type. -/
def uint16Type : GoType :=
  { kind := .kUint16, name := "uint16", pkgPath := "" }

/-- The built-in bool type. -/
def boolType : GoType :=
  { kind := .kBool, name := "bool", pkgPath := "" }

/-- The time.Duration type. -/
def durationType : GoType :=
  { kind := .kInt64, name := "Duration", pkgPath := "time" }

/-- Kinds whose rendered values round-trip through coercion in this
development, with the value inside the kind's range (as any value read from
a real field of that kind is): strings, the signed and unsigned integer
kinds of the coercion switch other than durations, and booleans. -/
def fitsKind (t : GoType) (v : GoValue) : Bool :=
  match t.kind, v with
  | .kString, .vString _ => true
  | .kInt, .vInt n => decide (-(2 ^ 63) ≤ n ∧ n < 2 ^ 63)
  | .kInt8, .vInt n => decide (-(2 ^ 7) ≤ n ∧ n < 2 ^ 7)
  | .kInt32, .vInt n => decide (-(2 ^ 31) ≤ n ∧ n < 2 ^ 31)
  | .kInt64, .vInt n => !isDurationType t && decide (-(2 ^ 63) ≤ n ∧ n < 2 ^ 63)
  | .kUint, .vUint n => decide (n < 2 ^ 64)
  | .kUint8, .vUint n => decide (n < 2 ^ 8)
  | .kUint32, .vUint n => decide (n < 2 ^ 32)
  | .kUint64, .vUint n => decide (n < 2 ^ 64)
  | .kBool, .vBool _ => true
  | _, _ => false

/-- Whether the extractor walks a field at all: it must be exported, not
ignored, and not of an unsupported kind. -/
def notSkipped (name : String) (tag : StructTag) (val : GoFieldVal) : Bool :=
  isExported name &&
  !(match tag.lookup TagIgnored with
    | some v => isTrue v
    | none => false) &&
  (match val with
   | .unsupportedLeaf => false
   | _ => true)

/-- The key segment a non-skipped field contributes at its level: its own
identifier for a leaf, the derived prefix segment for a sub-struct. -/
def fieldSeg (name : String) (tag : StructTag) (val : GoFieldVal) : String :=
  match val with
  | .strct _ => segOf name tag
  | _ => name

/-- The segments contributed by the non-skipped fields of one level. -/
def segsOf : List (String × StructTag × GoFieldVal) → List String
  | [] => []
  | (name, tag, val) :: rest =>
    (if notSkipped name tag val then [fieldSeg name tag val] else []) ++ segsOf rest

mutual

/-- Wellformedness of a schema level for key uniqueness: every non-skipped
field's segment is nonempty, dot-free, distinct from the segments of the
remaining fields of the level, and sub-structs are recursively wellformed.
The counterexample below shows uniqueness fails without it. -/
def wfFields : List (String × StructTag × GoFieldVal) → Bool
  | [] => true
  | (name, tag, val) :: rest =>
    (if notSkipped name tag val then
      let g := fieldSeg name tag val
      decide (g ≠ "") && decide ('.' ∉ g.data) && decide (g ∉ segsOf rest) && wfVal val
     else true) && wfFields rest

/-- Wellformedness of one field's value. -/
def wfVal : GoFieldVal → Bool
  | .strct flds => wfFields flds
  | _ => true

end

/-- The characters of a key up to its first dot. -/
def firstSegStr (s : String) : String :=
  ⟨s.data.takeWhile (fun c => c ≠ '.')⟩

/-- The specification's precedence chain for one definition: override,
then a changed flag, then a bound environment variable that is present,
then the declared default, then the bound flag's registered default value
(""), and nothing otherwise. Written from the specification's words, to be
compared with what registration into the layered store actually yields. -/
def resolvedByPrecedence (e : String) (fs : FlagState) (env : String → Option String)
    (d : fieldDefinition) : Option VVal :=
  if d.hasOverride then
    some (.typed d.fieldType (d.overrideValue.getD (zeroValue d.fieldType.kind)))
  else if d.hasFlag && fs.changed d.flagAlias then some (.str (fs.value d.flagAlias))
  else if d.hasEnv && (env (mergeWithEnvPfx e d.envAlias)).isSome then
    some (.str ((env (mergeWithEnvPfx e d.envAlias)).getD ""))
  else if d.hasDefault then some (.str d.defaultValue)
  else if d.hasFlag then some (.str "")
  else none

end Nest

deriving instance DecidableEq for Except

namespace Nest

/-! ## Store registration lemmas -/

theorem lookupAssoc_cons {α : Type} (k' : String) (v : α) (l : List (String × α)) (k : String) :
    lookupAssoc ((k', v) :: l) k = if k' = k then some v else lookupAssoc l k := by
  by_cases h : k' = k <;> simp [lookupAssoc, List.find?_cons, h]

/-- Registering one definition leaves every other key's layers unchanged. -/
theorem registerDef_lookup_ne (e : String) (st : ViperStore) (d : fieldDefinition) (k : String)
    (h : d.key ≠ k) :
    lookupAssoc (registerDef e st d).overrides k = lookupAssoc st.overrides k ∧
    lookupAssoc (registerDef e st d).pflags k = lookupAssoc st.pflags k ∧
    lookupAssoc (registerDef e st d).envBinds k = lookupAssoc st.envBinds k ∧
    lookupAssoc (registerDef e st d).defaults k = lookupAssoc st.defaults k := by
  by_cases h1 : d.hasOverride <;> by_cases h2 : d.hasFlag <;> by_cases h3 : d.hasEnv <;>
    by_cases h4 : d.hasDefault <;>
      simp [registerDef, ViperStore.set, ViperStore.bindPFlag, ViperStore.bindEnv,
        ViperStore.setDefault, h1, h2, h3, h4, lookupAssoc_cons, h]

/-- The registration loop leaves keys belonging to none of its definitions
unchanged in every layer. -/
theorem registerDefs_lookup_skip (e : String) (defs : List fieldDefinition) (st : ViperStore)
    (k : String) (h : ∀ d ∈ defs, d.key ≠ k) :
    lookupAssoc (registerDefs e defs st).overrides k = lookupAssoc st.overrides k ∧
    lookupAssoc (registerDefs e defs st).pflags k = lookupAssoc st.pflags k ∧
    lookupAssoc (registerDefs e defs st).envBinds k = lookupAssoc st.envBinds k ∧
    lookupAssoc (registerDefs e defs st).defaults k = lookupAssoc st.defaults k := by
  induction defs generalizing st with
  | nil => simp [registerDefs]
  | cons d rest ih =>
    have hd := h d (List.mem_cons_self _ _)
    have hrest : ∀ d2 ∈ rest, d2.key ≠ k := fun d2 hm => h d2 (List.mem_cons_of_mem _ hm)
    have hstep := registerDef_lookup_ne e st d k hd
    have htail := ih (registerDef e st d) hrest
    simp only [registerDefs, List.foldl_cons] at htail ⊢
    exact ⟨htail.1.trans hstep.1, htail.2.1.trans hstep.2.1,
      htail.2.2.1.trans hstep.2.2.1, htail.2.2.2.trans hstep.2.2.2⟩

/-- Registering one definition routes its sources into the four layers at
its own key, given the key was absent from the store. -/
theorem registerDef_lookup_self (e : String) (st : ViperStore) (d : fieldDefinition)
    (hov : lookupAssoc st.overrides d.key = none)
    (hpf : lookupAssoc st.pflags d.key = none)
    (hev : lookupAssoc st.envBinds d.key = none)
    (hdf : lookupAssoc st.defaults d.key = none) :
    lookupAssoc (registerDef e st d).overrides d.key =
      (if d.hasOverride then
        some (VVal.typed d.fieldType (d.overrideValue.getD (zeroValue d.fieldType.kind)))
       else none) ∧
    lookupAssoc (registerDef e st d).pflags d.key =
      (if d.hasFlag then some d.flagAlias else none) ∧
    lookupAssoc (registerDef e st d).envBinds d.key =
      (if d.hasEnv then some (mergeWithEnvPfx e d.envAlias) else none) ∧
    lookupAssoc (registerDef e st d).defaults d.key =
      (if d.hasDefault then some d.defaultValue else none) := by
  by_cases h1 : d.hasOverride <;> by_cases h2 : d.hasFlag <;> by_cases h3 : d.hasEnv <;>
    by_cases h4 : d.hasDefault <;>
      simp [registerDef, ViperStore.set, ViperStore.bindPFlag, ViperStore.bindEnv,
        ViperStore.setDefault, h1, h2, h3, h4, lookupAssoc_cons, hov, hpf, hev, hdf]

/-- After the whole registration loop over key-distinct definitions, each
definition's key resolves in each layer to exactly its own sources. -/
theorem registerDefs_lookup (e : String) (defs : List fieldDefinition) (st : ViperStore)
    (d : fieldDefinition) (hin : d ∈ defs)
    (hnodup : (defs.map (fun x => x.key)).Nodup)
    (hov : lookupAssoc st.overrides d.key = none)
    (hpf : lookupAssoc st.pflags d.key = none)
    (hev : lookupAssoc st.envBinds d.key = none)
    (hdf : lookupAssoc st.defaults d.key = none) :
    lookupAssoc (registerDefs e defs st).overrides d.key =
      (if d.hasOverride then
        some (VVal.typed d.fieldType (d.overrideValue.getD (zeroValue d.fieldType.kind)))
       else none) ∧
    lookupAssoc (registerDefs e defs st).pflags d.key =
      (if d.hasFlag then some d.flagAlias else none) ∧
    lookupAssoc (registerDefs e defs st).envBinds d.key =
      (if d.hasEnv then some (mergeWithEnvPfx e d.envAlias) else none) ∧
    lookupAssoc (registerDefs e defs st).defaults d.key =
      (if d.hasDefault then some d.defaultValue else none) := by
  induction defs generalizing st with
  | nil => cases hin
  | cons d0 rest ih =>
    simp only [List.map_cons, List.nodup_cons] at hnodup
    rcases List.mem_cons.mp hin with heq | hmem
    · subst heq
      have hrest : ∀ d2 ∈ rest, d2.key ≠ d.key := by
        intro d2 hm heq2
        exact hnodup.1 (heq2 ▸ List.mem_map_of_mem (fun x => x.key) hm)
      have hself := registerDef_lookup_self e st d hov hpf hev hdf
      have hskip := registerDefs_lookup_skip e rest (registerDef e st d) d.key hrest
      simp only [registerDefs, List.foldl_cons] at hskip ⊢
      exact ⟨hskip.1.trans hself.1, hskip.2.1.trans hself.2.1,
        hskip.2.2.1.trans hself.2.2.1, hskip.2.2.2.trans hself.2.2.2⟩
    · have hne : d0.key ≠ d.key := by
        intro heq2
        exact hnodup.1 (heq2 ▸ List.mem_map_of_mem (fun x => x.key) hmem)
      have hstep := registerDef_lookup_ne e st d0 d.key hne
      simp only [registerDefs, List.foldl_cons]
      exact ih (registerDef e st d0) hmem hnodup.2 (hstep.1.trans hov)
        (hstep.2.1.trans hpf) (hstep.2.2.1.trans hev) (hstep.2.2.2.trans hdf)

/-- The lookup the application loop performs on the store built by the
registration loop realises exactly the specification's precedence chain,
for every definition and every combination of present sources. -/
theorem viperGet_registerDefs (e : String) (defs : List fieldDefinition) (fs : FlagState)
    (env : String → Option String) (d : fieldDefinition) (hin : d ∈ defs)
    (hnodup : (defs.map (fun x => x.key)).Nodup) :
    viperGet (registerDefs e defs {}) fs env d.key = resolvedByPrecedence e fs env d := by
  obtain ⟨hov, hpf, hev, hdf⟩ := registerDefs_lookup e defs {} d hin hnodup rfl rfl rfl rfl
  simp only [viperGet, hov, hpf, hev, hdf, resolvedByPrecedence]
  by_cases h1 : d.hasOverride <;> by_cases h2 : d.hasFlag <;> by_cases h3 : d.hasEnv <;>
    by_cases h4 : d.hasDefault <;>
      simp only [h1, h2, h3, h4, if_true, if_false, Bool.true_and, Bool.false_and] <;>
      (try (by_cases h5 : fs.changed d.flagAlias <;> simp only [h5, if_true, if_false])) <;>
      (try (cases henv : env (mergeWithEnvPfx e d.envAlias) <;> simp [henv]))

/-! ## Decimal rendering and parsing round-trip -/

theorem digitVal_dChar (d : Nat) (h : d < 10) : digitVal (Char.ofNat (d + 48)) = some d := by
  interval_cases d <;> rfl

theorem dChar_ne_underscore (d : Nat) (h : d < 10) : Char.ofNat (d + 48) ≠ '_' := by
  interval_cases d <;> decide

theorem dChar_ne_zero_char (d : Nat) (h : d < 10) (h0 : d ≠ 0) : Char.ofNat (d + 48) ≠ '0' := by
  interval_cases d
  · exact absurd rfl h0
  all_goals decide

theorem dChar_ne_plus (d : Nat) (h : d < 10) : Char.ofNat (d + 48) ≠ '+' := by
  interval_cases d <;> decide

theorem dChar_ne_minus (d : Nat) (h : d < 10) : Char.ofNat (d + 48) ≠ '-' := by
  interval_cases d <;> decide

theorem foldl_digits_ge (ds : List Nat) (a : Nat) :
    a ≤ ds.foldl (fun x d => x * 10 + d) a := by
  induction ds generalizing a with
  | nil => exact le_refl a
  | cons d rest ih => exact le_trans (by omega) (ih (a * 10 + d))

theorem parseUintLoop_digits (maxVal cutoff : Nat) (m1 m2 : String)
    (hcut : maxVal / 10 < cutoff) (ds : List Nat) (a : Nat) (us : Bool)
    (hds : ∀ d ∈ ds, d < 10)
    (hbound : ds.foldl (fun x d => x * 10 + d) a ≤ maxVal) :
    parseUintLoop 10 maxVal cutoff m1 m2 a us (ds.map (fun d => Char.ofNat (d + 48))) =
      .ok (ds.foldl (fun x d => x * 10 + d) a, us) := by
  induction ds generalizing a with
  | nil => rfl
  | cons d rest ih =>
    have hd : d < 10 := hds d (List.mem_cons_self _ _)
    have hrest : ∀ x ∈ rest, x < 10 := fun x hm => hds x (List.mem_cons_of_mem _ hm)
    simp only [List.foldl_cons] at hbound ⊢
    have hfold : a * 10 + d ≤ rest.foldl (fun x y => x * 10 + y) (a * 10 + d) :=
      foldl_digits_ge rest _
    have hstep : a * 10 + d ≤ maxVal := le_trans hfold hbound
    have hacut : a < cutoff := by
      have h1 : a * 10 ≤ maxVal := by omega
      have h2 : a ≤ maxVal / 10 := (Nat.le_div_iff_mul_le (by norm_num)).mpr h1
      omega
    simp only [List.map_cons, parseUintLoop, if_neg (dChar_ne_underscore d hd),
      digitVal_dChar d hd]
    rw [if_neg (by omega : ¬d ≥ 10), if_neg (by omega : ¬a ≥ cutoff)]
    rw [if_neg (by omega : ¬a * 10 + d > maxVal)]
    exact ih (a * 10 + d) hrest hbound

theorem natToDecAux_eq (n : Nat) (hn : 1 ≤ n) : ∀ (fuel : Nat) (acc : List Char), n ≤ fuel →
    natToDecAux fuel n acc =
      ((Nat.digits 10 n).reverse.map (fun d => Char.ofNat (d + 48))) ++ acc := by
  induction n using Nat.strong_induction_on with
  | _ n ih =>
    intro fuel acc hfuel
    match fuel, hfuel with
    | 0, hfuel => omega
    | f + 1, hfuel =>
      simp only [natToDecAux]
      by_cases h2 : n / 10 = 0
      · have h10 : n < 10 := by
          rcases Nat.lt_or_ge n 10 with h | h
          · exact h
          · exact absurd h2 (by have := Nat.div_le_div_right (c := 10) h; simp at this; omega)
        rw [if_pos h2]
        have hdig : Nat.digits 10 n = [n] := by
          rw [Nat.digits_def' (by norm_num : (1:Nat) < 10) (by omega : 0 < n)]
          simp [h2, Nat.mod_eq_of_lt h10]
        simp [hdig, Nat.mod_eq_of_lt h10]
      · rw [if_neg h2]
        have hlt : n / 10 < n := Nat.div_lt_self (by omega) (by norm_num)
        rw [ih (n / 10) hlt (by omega) f (Char.ofNat (n % 10 + 48) :: acc) (by omega)]
        rw [Nat.digits_def' (by norm_num : (1:Nat) < 10) (by omega : 0 < n)]
        simp

theorem foldl_rev_digits (n : Nat) :
    ((Nat.digits 10 n).reverse).foldl (fun x d => x * 10 + d) 0 = n := by
  induction n using Nat.strong_induction_on with
  | _ n ih =>
    rcases Nat.eq_zero_or_pos n with rfl | hn
    · simp
    · rw [Nat.digits_def' (by norm_num : (1:Nat) < 10) hn]
      rw [List.reverse_cons, List.foldl_append]
      rw [ih (n / 10) (Nat.div_lt_self hn (by norm_num))]
      simp only [List.foldl_cons, List.foldl_nil]
      have := Nat.div_add_mod n 10
      omega

theorem natRepr_data (n : Nat) (hn : 1 ≤ n) :
    (natRepr n).data = (Nat.digits 10 n).reverse.map (fun d => Char.ofNat (d + 48)) := by
  show natToDecAux (n + 1) n [] = _
  rw [natToDecAux_eq n hn (n + 1) [] (by omega)]
  simp

theorem rev_digits_shape (n : Nat) (hn : 1 ≤ n) :
    ∃ d0 ds, (Nat.digits 10 n).reverse = d0 :: ds ∧ d0 ≠ 0 ∧ d0 < 10 ∧
      (∀ d ∈ d0 :: ds, d < 10) := by
  have hne : Nat.digits 10 n ≠ [] := Nat.digits_ne_nil_iff_ne_zero.mpr (by omega)
  have hrevne : (Nat.digits 10 n).reverse ≠ [] := by simp [hne]
  rcases hrev : (Nat.digits 10 n).reverse with _ | ⟨d0, ds⟩
  · exact absurd hrev hrevne
  · refine ⟨d0, ds, rfl, ?_, ?_, ?_⟩
    · have hlast := Nat.getLast_digit_ne_zero 10 (m := n) (by omega)
      have h1 : (Nat.digits 10 n).getLast? = some ((Nat.digits 10 n).getLast hne) :=
        List.getLast?_eq_getLast _ hne
      have h2 : (Nat.digits 10 n).reverse.head? = some d0 := by rw [hrev]; rfl
      rw [List.head?_reverse] at h2
      rw [h1] at h2
      have h3 : d0 = (Nat.digits 10 n).getLast hne := by
        injection h2 with h
        exact h.symm
      rw [h3]
      exact hlast
    · have hmem : d0 ∈ Nat.digits 10 n := by
        have : d0 ∈ (Nat.digits 10 n).reverse := by rw [hrev]; exact List.mem_cons_self _ _
        simpa using this
      exact Nat.digits_lt_base (by norm_num) hmem
    · intro d hm
      have : d ∈ (Nat.digits 10 n).reverse := by rw [hrev]; exact hm
      exact Nat.digits_lt_base (by norm_num) (by simpa using this)

theorem base0Detect_not0 (c : Char) (hc : c ≠ '0') (rest : List Char) :
    base0Detect (c :: rest) = (10, c :: rest) := by
  cases rest <;> simp [base0Detect, hc]

theorem parseUintBase0_natRepr (fn s0 : String) (n bitSize : Nat)
    (hn : 1 ≤ n) (hbound : n ≤ 2 ^ bitSize - 1) (hbits : bitSize ≤ 64) :
    parseUintBase0 fn s0 (natRepr n).data bitSize = .ok n := by
  obtain ⟨d0, ds, hrev, hd0, hd0lt, hall⟩ := rev_digits_shape n hn
  have hdata : (natRepr n).data = (d0 :: ds).map (fun d => Char.ofNat (d + 48)) := by
    rw [natRepr_data n hn, hrev]
  have hfold : (d0 :: ds).foldl (fun x d => x * 10 + d) 0 = n := by
    rw [← hrev]
    exact foldl_rev_digits n
  have hdetect : base0Detect ((d0 :: ds).map (fun d => Char.ofNat (d + 48))) =
      (10, (d0 :: ds).map (fun d => Char.ofNat (d + 48))) := by
    simp only [List.map_cons]
    exact base0Detect_not0 _ (dChar_ne_zero_char d0 hd0lt hd0) _
  have hcut : (2 ^ bitSize - 1) / 10 < (2 ^ 64 - 1) / 10 + 1 := by
    have h1 : (2:Nat) ^ bitSize ≤ 2 ^ 64 := Nat.pow_le_pow_right (by norm_num) hbits
    have h2 : (2 ^ bitSize - 1) / 10 ≤ (2 ^ 64 - 1) / 10 :=
      Nat.div_le_div_right (by omega)
    omega
  have hloop := parseUintLoop_digits (2 ^ bitSize - 1) ((2 ^ 64 - 1) / 10 + 1)
    (numErrorMsg fn s0 "invalid syntax") (numErrorMsg fn s0 "value out of range")
    hcut (d0 :: ds) 0 false hall (by rw [hfold]; exact hbound)
  rw [hdata]
  simp only [parseUintBase0, hdetect]
  rw [if_neg (by simp)]
  simp only [hloop, hfold]
  simp

theorem parseUintGo_natRepr (n bitSize : Nat) (hn : 1 ≤ n) (hbound : n ≤ 2 ^ bitSize - 1)
    (hbits : bitSize ≤ 64) : parseUintGo (natRepr n) bitSize = .ok n :=
  parseUintBase0_natRepr "ParseUint" (natRepr n) n bitSize hn hbound hbits

theorem parseIntGo_intRepr (i : Int) (bitSize : Nat) (hbs : 1 ≤ bitSize) (hbits : bitSize ≤ 64)
    (hlo : -((2 : Int) ^ (bitSize - 1)) ≤ i) (hhi : i < (2 : Int) ^ (bitSize - 1))
    (hne : i ≠ 0) :
    parseIntGo (intRepr i) bitSize = .ok i := by
  have hcast : ((2 : Int) ^ (bitSize - 1)) = ((2 ^ (bitSize - 1) : Nat) : Int) := by
    push_cast
    rfl
  rcases lt_trichotomy i 0 with hneg | hz | hpos
  · have hm1 : 1 ≤ i.natAbs := Int.natAbs_pos.mpr hne
    have hiv : (i.natAbs : Int) = -i := Int.ofNat_natAbs_of_nonpos (le_of_lt hneg)
    have hmle : i.natAbs ≤ 2 ^ (bitSize - 1) := by
      have : (i.natAbs : Int) ≤ (2 : Int) ^ (bitSize - 1) := by omega
      rw [hcast] at this
      exact_mod_cast this
    have hm64 : i.natAbs ≤ 2 ^ 64 - 1 := by
      have h1 : (2 : Nat) ^ (bitSize - 1) ≤ 2 ^ 63 :=
        Nat.pow_le_pow_right (by norm_num) (by omega)
      have h2 : (2 : Nat) ^ 63 ≤ 2 ^ 64 - 1 := by norm_num
      omega
    have hrepr : intRepr i = "-" ++ natRepr i.natAbs := by
      simp [intRepr, if_pos hneg]
    have hdata : (intRepr i).data = '-' :: (natRepr i.natAbs).data := by
      rw [hrepr]
      simp
    have hparse := parseUintBase0_natRepr "ParseInt" (intRepr i) i.natAbs 64 hm1 hm64
      (le_refl 64)
    have hgt : ¬(i.natAbs > 2 ^ (bitSize - 1)) := not_lt.mpr hmle
    have hval : -((i.natAbs : Nat) : Int) = i := by omega
    simp only [parseIntGo, hdata]
    simp [hparse, hgt, hval]
    rw [abs_of_nonpos (le_of_lt hneg)]
    simp
  · exact absurd hz hne
  · have hn1 : 1 ≤ i.toNat := by omega
    have hiv : ((i.toNat : Nat) : Int) = i := Int.toNat_of_nonneg (le_of_lt hpos)
    have hnlt : i.toNat < 2 ^ (bitSize - 1) := by
      have : ((i.toNat : Nat) : Int) < (2 : Int) ^ (bitSize - 1) := by omega
      rw [hcast] at this
      exact_mod_cast this
    have hn64 : i.toNat ≤ 2 ^ 64 - 1 := by
      have h1 : (2 : Nat) ^ (bitSize - 1) ≤ 2 ^ 63 :=
        Nat.pow_le_pow_right (by norm_num) (by omega)
      have h2 : (2 : Nat) ^ 63 ≤ 2 ^ 64 - 1 := by norm_num
      omega
    have hrepr : intRepr i = natRepr i.toNat := by
      have hab : i.natAbs = i.toNat := by omega
      simp [intRepr, if_neg (not_lt.mpr (le_of_lt hpos)), hab]
    obtain ⟨d0, ds, hrev, hd0, hd0lt, hall⟩ := rev_digits_shape i.toNat hn1
    have hdata : (intRepr i).data =
        Char.ofNat (d0 + 48) :: ds.map (fun d => Char.ofNat (d + 48)) := by
      rw [hrepr, natRepr_data i.toNat hn1, hrev]
      simp
    have hparse := parseUintBase0_natRepr "ParseInt" (intRepr i) i.toNat 64 hn1 hn64
      (le_refl 64)
    have hdata2 : Char.ofNat (d0 + 48) :: ds.map (fun d => Char.ofNat (d + 48)) =
        (natRepr i.toNat).data := by
      rw [natRepr_data i.toNat hn1, hrev]
      simp
    have hge : ¬(i.toNat ≥ 2 ^ (bitSize - 1)) := not_le.mpr hnlt
    simp only [parseIntGo, hdata]
    rw [if_neg (dChar_ne_plus d0 hd0lt), if_neg (dChar_ne_minus d0 hd0lt)]
    rw [hdata2]
    simp [hparse, hge, hiv]

/-- The decimal renderings of nonzero values are never the empty string. -/
theorem natRepr_ne_empty (n : Nat) : natRepr n ≠ "" := by
  rcases Nat.eq_zero_or_pos n with rfl | hn
  · decide
  · intro h
    have h2 : (natRepr n).data = [] := by rw [h]
    rw [natRepr_data n hn] at h2
    simp only [List.map_eq_nil_iff, List.reverse_eq_nil_iff] at h2
    exact absurd h2 (Nat.digits_ne_nil_iff_ne_zero.mpr (by omega))

theorem intRepr_ne_empty (i : Int) : intRepr i ≠ "" := by
  by_cases h : i < 0
  · simp only [intRepr, if_pos h]
    intro hc
    have : ("-" ++ natRepr i.natAbs).data = [] := by rw [hc]
    simp at this
  · simp only [intRepr, if_neg h]
    exact natRepr_ne_empty _

/-- Round trip through rendering and coercion: for the kinds fitsKind
covers, coercing the rendered value back restores it exactly, and the
rendered value is never the empty string (so the zero-value substitution
never fires for it). -/
theorem processField_roundTrip (hook : DecodeHook) (t : GoType) (cur v : GoValue)
    (hfits : fitsKind t v = true) (hdec : canDecodeType t = false)
    (hnz : v ≠ zeroValue t.kind) :
    goSprintf t v ≠ "" ∧ processField hook t cur (goSprintf t v) = .ok v := by
  obtain ⟨k, nm, pp, dec, tum⟩ := t
  simp only [canDecodeType, Bool.or_eq_false_iff] at hdec
  obtain ⟨hd, ht⟩ := hdec
  subst hd
  subst ht
  cases k <;> cases v <;>
    first
    | exact Bool.noConfusion hfits
    | simp only [fitsKind] at hfits
  case kString.vString s =>
    have hs : s ≠ "" := by
      intro hc
      exact hnz (by simp [zeroValue, hc])
    exact ⟨hs, by simp [processField, canDecodeType, goSprintf]⟩
  case kBool.vBool b =>
    have hb : b = true := by
      cases b
      · exact absurd rfl hnz
      · rfl
    subst hb
    refine ⟨by simp [goSprintf], ?_⟩
    simp [processField, canDecodeType, goSprintf, parseBool]
  case kInt.vInt n =>
    have hn : n ≠ 0 := fun hc => hnz (by simp [zeroValue, hc])
    simp only [decide_eq_true_eq] at hfits
    have hdur : isDurationType ⟨GoKind.kInt, nm, pp, false, false⟩ = false := by
      simp [isDurationType]
    refine ⟨?_, ?_⟩
    · simp [goSprintf, hdur, intRepr_ne_empty]
    · simp [processField, canDecodeType, goSprintf, hdur, goBits,
        parseIntGo_intRepr n 64 (by norm_num) (by norm_num)
          (by exact_mod_cast hfits.1) (by exact_mod_cast hfits.2) hn]
  case kInt8.vInt n =>
    have hn : n ≠ 0 := fun hc => hnz (by simp [zeroValue, hc])
    simp only [decide_eq_true_eq] at hfits
    have hdur : isDurationType ⟨GoKind.kInt8, nm, pp, false, false⟩ = false := by
      simp [isDurationType]
    refine ⟨?_, ?_⟩
    · simp [goSprintf, hdur, intRepr_ne_empty]
    · simp [processField, canDecodeType, goSprintf, hdur, goBits,
        parseIntGo_intRepr n 8 (by norm_num) (by norm_num)
          (by exact_mod_cast hfits.1) (by exact_mod_cast hfits.2) hn]
  case kInt32.vInt n =>
    have hn : n ≠ 0 := fun hc => hnz (by simp [zeroValue, hc])
    simp only [decide_eq_true_eq] at hfits
    have hdur : isDurationType ⟨GoKind.kInt32, nm, pp, false, false⟩ = false := by
      simp [isDurationType]
    refine ⟨?_, ?_⟩
    · simp [goSprintf, hdur, intRepr_ne_empty]
    · simp [processField, canDecodeType, goSprintf, hdur, goBits,
        parseIntGo_intRepr n 32 (by norm_num) (by norm_num)
          (by exact_mod_cast hfits.1) (by exact_mod_cast hfits.2) hn]
  case kInt64.vInt n =>
    have hn : n ≠ 0 := fun hc => hnz (by simp [zeroValue, hc])
    simp only [Bool.and_eq_true, Bool.not_eq_true', decide_eq_true_eq] at hfits
    obtain ⟨hdur, hrange⟩ := hfits
    refine ⟨?_, ?_⟩
    · simp [goSprintf, hdur, intRepr_ne_empty]
    · simp [processField, canDecodeType, goSprintf, hdur, goBits,
        parseIntGo_intRepr n 64 (by norm_num) (by norm_num)
          (by exact_mod_cast hrange.1) (by exact_mod_cast hrange.2) hn]
  case kUint.vUint n =>
    have hn : 1 ≤ n := by
      rcases Nat.eq_zero_or_pos n with rfl | h
      · exact absurd rfl hnz
      · exact h
    simp only [decide_eq_true_eq] at hfits
    refine ⟨by simp [goSprintf, natRepr_ne_empty], ?_⟩
    simp [processField, canDecodeType, goSprintf, goBits,
      parseUintGo_natRepr n 64 hn (by omega) (by norm_num)]
  case kUint8.vUint n =>
    have hn : 1 ≤ n := by
      rcases Nat.eq_zero_or_pos n with rfl | h
      · exact absurd rfl hnz
      · exact h
    simp only [decide_eq_true_eq] at hfits
    refine ⟨by simp [goSprintf, natRepr_ne_empty], ?_⟩
    simp [processField, canDecodeType, goSprintf, goBits,
      parseUintGo_natRepr n 8 hn (by omega) (by norm_num)]
  case kUint32.vUint n =>
    have hn : 1 ≤ n := by
      rcases Nat.eq_zero_or_pos n with rfl | h
      · exact absurd rfl hnz
      · exact h
    simp only [decide_eq_true_eq] at hfits
    refine ⟨by simp [goSprintf, natRepr_ne_empty], ?_⟩
    simp [processField, canDecodeType, goSprintf, goBits,
      parseUintGo_natRepr n 32 hn (by omega) (by norm_num)]
  case kUint64.vUint n =>
    have hn : 1 ≤ n := by
      rcases Nat.eq_zero_or_pos n with rfl | h
      · exact absurd rfl hnz
      · exact h
    simp only [decide_eq_true_eq] at hfits
    refine ⟨by simp [goSprintf, natRepr_ne_empty], ?_⟩
    simp [processField, canDecodeType, goSprintf, goBits,
      parseUintGo_natRepr n 64 hn (by omega) (by norm_num)]

/-! ## Key shape and uniqueness lemmas -/

theorem strAppend_assoc (a b c : String) : a ++ b ++ c = a ++ (b ++ c) := by
  apply String.ext
  simp

theorem strAppend_cancel_left {a b c : String} (h : a ++ b = a ++ c) : b = c := by
  apply String.ext
  have h2 := congrArg String.data h
  simp at h2
  exact h2

theorem strAppend_ne_empty_right (a b : String) (hb : b ≠ "") : a ++ b ≠ "" := by
  intro h
  apply hb
  apply String.ext
  have h2 := congrArg String.data h
  simp [List.append_eq_nil] at h2
  simp [h2.2]

theorem takeWhile_append_stop {p : Char → Bool} (xs ys : List Char) (y : Char)
    (hall : ∀ x ∈ xs, p x = true) (hy : p y = false) :
    (xs ++ y :: ys).takeWhile p = xs := by
  induction xs with
  | nil => simp [List.takeWhile_cons, hy]
  | cons x rest ih =>
    have hx := hall x (List.mem_cons_self _ _)
    simp [List.takeWhile_cons, hx,
      ih (fun z hz => hall z (List.mem_cons_of_mem _ hz))]

theorem firstSegStr_dotfree (s : String) (h : '.' ∉ s.data) : firstSegStr s = s := by
  apply String.ext
  show s.data.takeWhile (fun c => c ≠ '.') = s.data
  rw [List.takeWhile_eq_self_iff.mpr]
  intro x hx
  simp only [ne_eq, decide_eq_true_eq]
  exact fun he => h (he ▸ hx)

theorem firstSegStr_append (g t : String) (h : '.' ∉ g.data) :
    firstSegStr (g ++ "." ++ t) = g := by
  apply String.ext
  show ((g ++ "." ++ t).data).takeWhile (fun c => c ≠ '.') = g.data
  have hdata : (g ++ "." ++ t).data = g.data ++ '.' :: t.data := by simp
  rw [hdata]
  apply takeWhile_append_stop
  · intro x hx
    simp only [ne_eq, decide_eq_true_eq]
    exact fun he => h (he ▸ hx)
  · simp

set_option maxHeartbeats 1000000 in
theorem buildLeafDef_key (name : String) (tag : StructTag) (t : GoType) (v : GoValue)
    (pfx : String) (path : List Nat) (i : Nat) :
    (buildLeafDef name tag t v pfx path i).key = keyPfxOf pfx ++ name := by
  simp only [buildLeafDef]
  repeat' split
  all_goals rfl

theorem extractOneField_skipped (name : String) (tag : StructTag) (val : GoFieldVal)
    (pfx : String) (path : List Nat) (i : Nat) (h : notSkipped name tag val = false) :
    extractOneField name tag val pfx path i = [] := by
  by_cases hex : isExported name = true
  · cases hi : tag.lookup TagIgnored with
    | some w =>
      by_cases hw : isTrue w = true
      · cases val <;> simp [extractOneField, hex, hi, hw]
      · have hw2 : isTrue w = false := by
          cases hv : isTrue w
          · rfl
          · exact absurd hv hw
        cases val with
        | unsupportedLeaf => simp [extractOneField, hex, hi, hw2]
        | leaf t v => simp [notSkipped, hex, hi, hw2] at h
        | strct flds => simp [notSkipped, hex, hi, hw2] at h
    | none =>
      cases val with
      | unsupportedLeaf => simp [extractOneField, hex, hi]
      | leaf t v => simp [notSkipped, hex, hi] at h
      | strct flds => simp [notSkipped, hex, hi] at h
  · have hex2 : isExported name = false := by
      cases hv : isExported name
      · rfl
      · exact absurd hv hex
    cases val <;> cases hi : tag.lookup TagIgnored <;> simp [extractOneField, hex2, hi]

theorem extractOneField_leaf_keys (name : String) (tag : StructTag) (t : GoType) (v : GoValue)
    (pfx : String) (path : List Nat) (i : Nat)
    (hex : isExported name = true)
    (hign : (match tag.lookup TagIgnored with
      | some w => isTrue w
      | none => false) = false) :
    (extractOneField name tag (.leaf t v) pfx path i).map (fun d => d.key) =
      [keyPfxOf pfx ++ name] := by
  cases hi : tag.lookup TagIgnored with
  | some w =>
    rw [hi] at hign
    have hw : isTrue w = false := hign
    simp [extractOneField, hex, hi, hw, buildLeafDef_key]
  | none => simp [extractOneField, hex, hi, buildLeafDef_key]

theorem extractOneField_strct_eq (name : String) (tag : StructTag)
    (flds : List (String × StructTag × GoFieldVal))
    (pfx : String) (path : List Nat) (i : Nat)
    (hex : isExported name = true)
    (hign : (match tag.lookup TagIgnored with
      | some w => isTrue w
      | none => false) = false) :
    extractOneField name tag (.strct flds) pfx path i =
      getDefinitionsForStruct flds (keyPfxOf pfx ++ segOf name tag) (path ++ [i]) 0 := by
  cases hi : tag.lookup TagIgnored with
  | some w =>
    rw [hi] at hign
    have hw : isTrue w = false := hign
    simp [extractOneField, hex, hi, hw]
  | none => simp [extractOneField, hex, hi]

theorem keyPfxOf_ne (p : String) (hp : p ≠ "") : keyPfxOf p = p ++ "." := by
  simp [keyPfxOf, hp]

mutual

/-- Keys of one level: under wellformedness they are pairwise distinct, and
each one is the level's key prefix followed by a tail whose first segment is
one of the level's field segments. -/
theorem level_keys_shape (fields : List (String × StructTag × GoFieldVal))
    (pfx : String) (path : List Nat) (i : Nat) (hwf : wfFields fields = true) :
    ((getDefinitionsForStruct fields pfx path i).map (fun d => d.key)).Nodup ∧
    ∀ k ∈ (getDefinitionsForStruct fields pfx path i).map (fun d => d.key),
      ∃ t, k = keyPfxOf pfx ++ t ∧ firstSegStr t ∈ segsOf fields := by
  cases fields with
  | nil => simp [getDefinitionsForStruct]
  | cons hd rest =>
    obtain ⟨name, tag, val⟩ := hd
    by_cases hns : notSkipped name tag val = true
    · have hwf2 := hwf
      simp only [wfFields, hns, if_true, Bool.and_eq_true, decide_eq_true_eq] at hwf2
      obtain ⟨⟨⟨⟨hg1, hg2⟩, hg3⟩, hwv⟩, hwfr⟩ := hwf2
      have IH1 := field_keys_shape name tag val pfx path i hns hg1 hg2 hwv
      have IH2 := level_keys_shape rest pfx path (i + 1) hwfr
      simp only [getDefinitionsForStruct, List.map_append]
      constructor
      · apply List.Nodup.append IH1.1 IH2.1
        intro k hk1 hk2
        obtain ⟨t1, hkt1, hft1⟩ := IH1.2 k hk1
        obtain ⟨t2, hkt2, hft2⟩ := IH2.2 k hk2
        have ht12 : t1 = t2 := strAppend_cancel_left (hkt1 ▸ hkt2)
        rw [ht12] at hft1
        rw [hft1] at hft2
        exact hg3 hft2
      · intro k hk
        rcases List.mem_append.mp hk with hk1 | hk2
        · obtain ⟨t1, hkt1, hft1⟩ := IH1.2 k hk1
          exact ⟨t1, hkt1, by simp [segsOf, hns, hft1]⟩
        · obtain ⟨t2, hkt2, hft2⟩ := IH2.2 k hk2
          exact ⟨t2, hkt2, by simp [segsOf, hns]; right; exact hft2⟩
    · have hnf : notSkipped name tag val = false := by
        cases h : notSkipped name tag val
        · rfl
        · exact absurd h hns
      have hwfr : wfFields rest = true := by
        simp only [wfFields, hnf, Bool.and_eq_true] at hwf
        simpa using hwf
      have hz : extractOneField name tag val pfx path i = [] :=
        extractOneField_skipped name tag val pfx path i hnf
      have IH2 := level_keys_shape rest pfx path (i + 1) hwfr
      simp only [getDefinitionsForStruct, hz, List.nil_append, segsOf, hnf,
        Bool.false_eq_true, if_false]
      exact IH2

/-- Keys of one non-skipped, wellformed field: pairwise distinct, and each
one is the level's key prefix followed by a tail whose first segment is the
field's own segment. -/
theorem field_keys_shape (name : String) (tag : StructTag) (val : GoFieldVal)
    (pfx : String) (path : List Nat) (i : Nat)
    (hns : notSkipped name tag val = true)
    (hg1 : fieldSeg name tag val ≠ "")
    (hg2 : '.' ∉ (fieldSeg name tag val).data)
    (hwv : wfVal val = true) :
    ((extractOneField name tag val pfx path i).map (fun d => d.key)).Nodup ∧
    ∀ k ∈ (extractOneField name tag val pfx path i).map (fun d => d.key),
      ∃ t, k = keyPfxOf pfx ++ t ∧ firstSegStr t = fieldSeg name tag val := by
  cases val with
  | unsupportedLeaf => simp [notSkipped] at hns
  | leaf t v =>
    have hand := hns
    simp only [notSkipped, Bool.and_eq_true, Bool.and_true, Bool.not_eq_true'] at hand
    obtain ⟨hex, hign⟩ := hand
    rw [extractOneField_leaf_keys name tag t v pfx path i hex hign]
    refine ⟨by simp, ?_⟩
    intro k hk
    rw [List.mem_singleton] at hk
    refine ⟨name, hk, ?_⟩
    exact firstSegStr_dotfree name hg2
  | strct flds =>
    have hand := hns
    simp only [notSkipped, Bool.and_eq_true, Bool.and_true, Bool.not_eq_true'] at hand
    obtain ⟨hex, hign⟩ := hand
    rw [extractOneField_strct_eq name tag flds pfx path i hex hign]
    have hwff : wfFields flds = true := hwv
    have IH := level_keys_shape flds (keyPfxOf pfx ++ segOf name tag) (path ++ [i]) 0 hwff
    have hpfxne : keyPfxOf pfx ++ segOf name tag ≠ "" :=
      strAppend_ne_empty_right _ _ hg1
    have hkp : keyPfxOf (keyPfxOf pfx ++ segOf name tag) =
        keyPfxOf pfx ++ (segOf name tag ++ ".") := by
      rw [keyPfxOf_ne _ hpfxne, strAppend_assoc]
    refine ⟨IH.1, ?_⟩
    intro k hk
    obtain ⟨t2, hkt2, hft2⟩ := IH.2 k hk
    refine ⟨segOf name tag ++ "." ++ t2, ?_, ?_⟩
    · rw [hkt2, hkp, strAppend_assoc]
    · exact firstSegStr_append (segOf name tag) t2 hg2

end

/-! ## Claims -/

/-- C4: for a non-pointer argument Load returns ErrNotStructPointer, and
for a pointer to a non-struct it returns ErrNotStruct; in both cases it
returns before any extraction work, leaving the target, the external store
and the configurator name unchanged. -/
theorem c4_shape_errors_before_work (c : Configurator) (fp : FlagParseOutcome)
    (env : String → Option String) (hook : DecodeHook) :
    load c .notPtr fp env hook =
      { outcome := .err "value passed is not a struct pointer", target := .notPtr,
        viper := c.viper, name := c.name } ∧
    load c .ptrToNonStruct fp env hook =
      { outcome := .err "value passed is not a struct", target := .ptrToNonStruct,
        viper := c.viper, name := c.name } :=
  ⟨rfl, rfl⟩

/-- C10: with an unset display name and an empty argument vector, Load on a
valid struct pointer panics while defaulting the name from the first
argument, instead of returning an error. -/
theorem c10_load_panics_on_empty_args (c : Configurator)
    (fields : List (String × StructTag × GoFieldVal)) (fp : FlagParseOutcome)
    (env : String → Option String) (hook : DecodeHook)
    (hname : c.name = "") (hargs : c.args = []) :
    (load c (.ptrToStruct fields) fp env hook).outcome =
      .panicked "runtime error: index out of range [0] with length 0" := by
  simp [load, hname, hargs]

/-- Witness for C10 at a freshly constructed configurator. -/
theorem c10_witness :
    ({} : Configurator).name = "" ∧ ({} : Configurator).args = [] ∧
    (load {} (.ptrToStruct []) (.ok noFlags) (fun _ => none) trivialHook).outcome =
      .panicked "runtime error: index out of range [0] with length 0" :=
  ⟨rfl, rfl, c10_load_panics_on_empty_args {} [] (.ok noFlags) (fun _ => none) trivialHook rfl rfl⟩

/-- C6: canDecode holds exactly when the value (or a reference to it)
exposes the self-decoder or the text-unmarshaler capability; when both are
exposed, decode always dispatches to the self-decoder; and when canDecode
fails, decode returns the "value cannot decode itself" error without
invoking either capability. -/
theorem c6_decode_protocol (f : RValue) (v : String) :
    canDecode f = (exposesDecoder f || exposesTextUnmarshaler f) ∧
    (exposesDecoder f = true → exposesTextUnmarshaler f = true →
      decode f v = .viaDecoder v) ∧
    (canDecode f = false → decode f v = .errorRes "value cannot decode itself") := by
  obtain ⟨a, b, c, d, e, g⟩ := f
  cases a <;> cases b <;> cases c <;> cases d <;> cases e <;> cases g <;>
    simp [canDecode, decode, exposesDecoder, exposesTextUnmarshaler]

/-- Witness for C6: a value exposing both capabilities decodes via the
self-decoder, and one exposing neither fails with the dedicated error. -/
theorem c6_witness :
    exposesDecoder { valueIsDecoder := true, valueIsTextUnmarshaler := true } = true ∧
    decode { valueIsDecoder := true, valueIsTextUnmarshaler := true } "x" = .viaDecoder "x" ∧
    canDecode { canInterface := false, valueIsDecoder := true } = false ∧
    decode { canInterface := false, valueIsDecoder := true } "x" =
      .errorRes "value cannot decode itself" :=
  ⟨by decide,
   (c6_decode_protocol { valueIsDecoder := true, valueIsTextUnmarshaler := true } "x").2.1
     (by decide) (by decide),
   by decide,
   (c6_decode_protocol { canInterface := false, valueIsDecoder := true } "x").2.2 (by decide)⟩

/-- C1: the precedence order override > flag > environment variable >
default holds for every field and every combination of present sources
(after Load's registration loop, the store lookup for each definition's
key equals the specification's precedence chain); and end to end, a field
with a non-zero pre-existing value loads back to exactly that value even
when a parsed flag, a bound environment variable and a declared default
all supply conflicting values for the same key. -/
theorem c1_override_precedence :
    (∀ (e : String) (defs : List fieldDefinition) (fs : FlagState)
       (env : String → Option String) (d : fieldDefinition),
       d ∈ defs → (defs.map (fun x => x.key)).Nodup →
       viperGet (registerDefs e defs {}) fs env d.key = resolvedByPrecedence e fs env d) ∧
    (∀ (nm fAlias eAlias dv : String) (t : GoType) (v : GoValue) (c : Configurator)
       (fs : FlagState) (env : String → Option String) (hook : DecodeHook),
       isExported nm = true → fAlias ≠ "" → eAlias ≠ "" →
       fitsKind t v = true → canDecodeType t = false → v ≠ zeroValue t.kind →
       c.name ≠ "" → c.viper = {} →
       (load c (.ptrToStruct [(nm, ⟨[("flag", fAlias), ("env", eAlias), ("default", dv)]⟩,
           .leaf t v)]) (.ok fs) env hook).outcome = .ok ∧
       targetFields (load c (.ptrToStruct [(nm,
           ⟨[("flag", fAlias), ("env", eAlias), ("default", dv)]⟩, .leaf t v)])
           (.ok fs) env hook).target =
         some [(nm, ⟨[("flag", fAlias), ("env", eAlias), ("default", dv)]⟩, .leaf t v)]) := by
  constructor
  · intro e defs fs env d hin hnodup
    exact viperGet_registerDefs e defs fs env d hin hnodup
  · intro nm fAlias eAlias dv t v c fs env hook hex hF hE hfits hdec hnz hname hviper
    have hov : isZeroValueOfType t.kind v = false := by
      simp [isZeroValueOfType]
      exact hnz
    obtain ⟨hne, hpf⟩ := processField_roundTrip hook t v v hfits hdec hnz
    have happ : loadApplyValue hook t v (goSprintf t v) = .ok v := by
      simp [loadApplyValue, hne, hpf]
    have hread : readAtFields
        [(nm, (⟨[("flag", fAlias), ("env", eAlias), ("default", dv)]⟩ : StructTag),
          GoFieldVal.leaf t v)] [0] = some (t, v) := rfl
    have hset : setAtFields
        [(nm, (⟨[("flag", fAlias), ("env", eAlias), ("default", dv)]⟩ : StructTag),
          GoFieldVal.leaf t v)] [0] v =
        [(nm, (⟨[("flag", fAlias), ("env", eAlias), ("default", dv)]⟩ : StructTag),
          GoFieldVal.leaf t v)] := rfl
    constructor <;>
      simp [load, hname, hviper, getDefinitions, getDefinitionsForStruct, extractOneField, buildLeafDef,
        hex, hov, StructTag.lookup, StructTag.get, TagIgnored, TagFlag, TagEnvironment,
        TagDefault, TagRequired, TagSplitWords, TagUsage, TagPrefixKey, List.find?, hF, hE,
        registerDefs, registerDef, ViperStore.set, ViperStore.bindPFlag, ViperStore.bindEnv,
        ViperStore.setDefault, applyDefs, viperGet, lookupAssoc, sprintfVVal, happ, hread,
        hset, keyPfxOf, flagPfxOf, envPfxOf, targetFields]

/-- Witness for C1: the precedence part applied to a definition carrying
all four sources (the override wins), and the end-to-end part applied to a
string field pre-set to "override" while the flag, environment variable
and default all supply conflicting values. -/
theorem c1_witness :
    viperGet (registerDefs ""
      [{ key := "Override", fieldType := stringType, fieldPath := [0], hasOverride := true,
         overrideValue := some (.vString "override"), hasFlag := true, flagAlias := "override",
         hasEnv := true, envAlias := "OVERRIDE", hasDefault := true,
         defaultValue := "default" }] {})
      { changed := fun _ => true, value := fun _ => "flag" }
      (fun _ => some "env") "Override" =
      some (.typed stringType (.vString "override")) ∧
    (load { name := "program" }
      (.ptrToStruct [("Override", ⟨[("flag", "override"), ("env", "override"),
        ("default", "default")]⟩, .leaf stringType (.vString "override"))])
      (.ok { changed := fun _ => true, value := fun _ => "flag" })
      (fun _ => some "env") trivialHook).outcome = .ok ∧
    targetFields (load { name := "program" }
      (.ptrToStruct [("Override", ⟨[("flag", "override"), ("env", "override"),
        ("default", "default")]⟩, .leaf stringType (.vString "override"))])
      (.ok { changed := fun _ => true, value := fun _ => "flag" })
      (fun _ => some "env") trivialHook).target =
      some [("Override", ⟨[("flag", "override"), ("env", "override"),
        ("default", "default")]⟩, .leaf stringType (.vString "override"))] := by
  refine ⟨?_, ?_⟩
  · have h := c1_override_precedence.1 ""
      [{ key := "Override", fieldType := stringType, fieldPath := [0], hasOverride := true,
         overrideValue := some (.vString "override"), hasFlag := true, flagAlias := "override",
         hasEnv := true, envAlias := "OVERRIDE", hasDefault := true,
         defaultValue := "default" }]
      { changed := fun _ => true, value := fun _ => "flag" }
      (fun _ => some "env") _ (List.mem_cons_self _ _) (by simp)
    rw [h]
    rfl
  · exact c1_override_precedence.2 "Override" "override" "override" "default" stringType
      (.vString "override") { name := "program" }
      { changed := fun _ => true, value := fun _ => "flag" } (fun _ => some "env")
      trivialHook (by decide) (by decide) (by decide) (by decide) (by decide) (by decide)
      (by decide) rfl

/-- C3: for every numeric and boolean field kind, an empty resolved value
string makes Load substitute the zero-value string of the field's type
before coercion, and coercing a zero-valued field of such a kind from the
empty string succeeds and leaves the field at its type's zero value. -/
theorem c3_empty_value_falls_back_to_zero (t : GoType) (hook : DecodeHook)
    (hkind : t.kind ≠ GoKind.kString) (hdec : canDecodeType t = false) :
    (∀ cur, loadApplyValue hook t cur "" =
      processField hook t cur (goSprintf t (zeroValue t.kind))) ∧
    loadApplyValue hook t (zeroValue t.kind) "" = .ok (zeroValue t.kind) := by
  have hsub : ∀ cur, loadApplyValue hook t cur "" =
      processField hook t cur (goSprintf t (zeroValue t.kind)) := by
    intro cur
    simp [loadApplyValue]
  refine ⟨hsub, ?_⟩
  rw [hsub]
  obtain ⟨k, nm, pp, dec, tum⟩ := t
  simp only [canDecodeType, Bool.or_eq_false_iff] at hdec
  obtain ⟨hd, ht⟩ := hdec
  subst hd
  subst ht
  have hz0 : intRepr 0 = "0" := rfl
  have hn0 : natRepr 0 = "0" := rfl
  have hi8 : parseIntGo "0" 8 = .ok 0 := rfl
  have hi32 : parseIntGo "0" 32 = .ok 0 := rfl
  have hi64 : parseIntGo "0" 64 = .ok 0 := rfl
  have hu8 : parseUintGo "0" 8 = .ok 0 := rfl
  have hu16 : parseUintGo "0" 16 = .ok 0 := rfl
  have hu32 : parseUintGo "0" 32 = .ok 0 := rfl
  have hu64 : parseUintGo "0" 64 = .ok 0 := rfl
  have hf32 : parseFloatLit "0" 32 = .ok 0 := rfl
  have hf64 : parseFloatLit "0" 64 = .ok 0 := rfl
  have hb : parseBool "false" = .ok false := rfl
  have hds : durationString 0 = "0s" := rfl
  have hd0 : parseDuration "0s" = .ok 0 := rfl
  have hfr : floatRepr 0 = "0" := rfl
  cases k
  case kString => exact absurd rfl hkind
  case kInt64 =>
    by_cases hdur : isDurationType ⟨GoKind.kInt64, nm, pp, false, false⟩ = true
    · simp [processField, canDecodeType, goSprintf, zeroValue, hdur, hds, hd0]
    · simp [processField, canDecodeType, goSprintf, zeroValue, hdur, hz0, hi64, goBits]
  all_goals
    simp [processField, canDecodeType, goSprintf, zeroValue, isDurationType, goBits,
      hz0, hn0, hi8, hi32, hi64, hu8, hu16, hu32, hu64, hf32, hf64, hb, hfr]

/-- Witness for C3 at the int8 kind: an empty bound value coerces to zero
without a parse error. -/
theorem c3_witness :
    int8Type.kind ≠ GoKind.kString ∧ canDecodeType int8Type = false ∧
    loadApplyValue trivialHook int8Type (zeroValue int8Type.kind) "" =
      .ok (zeroValue int8Type.kind) :=
  ⟨by decide, by decide,
   (c3_empty_value_falls_back_to_zero int8Type trivialHook (by decide) (by decide)).2⟩

/-- C7: a root-level field named OtherValue with a truthy split_words
annotation derives flag alias "other-value" from an empty flag annotation,
and environment alias "OTHER_VALUE" from an empty env annotation. -/
theorem c7_split_words_aliases (tagF tagE : StructTag) (vF vE : String)
    (t : GoType) (v : GoValue)
    (hIgnF : (match tagF.lookup TagIgnored with | some w => isTrue w | none => false) = false)
    (hFlag : tagF.lookup TagFlag = some "")
    (hSwF : tagF.lookup TagSplitWords = some vF) (hvF : isTrue vF = true)
    (hIgnE : (match tagE.lookup TagIgnored with | some w => isTrue w | none => false) = false)
    (hEnv : tagE.lookup TagEnvironment = some "")
    (hSwE : tagE.lookup TagSplitWords = some vE) (hvE : isTrue vE = true) :
    (getDefinitions [("OtherValue", tagF, .leaf t v)]).map (fun d => d.flagAlias) =
      ["other-value"] ∧
    (getDefinitions [("OtherValue", tagE, .leaf t v)]).map (fun d => d.envAlias) =
      ["OTHER_VALUE"] := by
  constructor
  · have hsw : splitWords (lowerFirst "OtherValue") "-" = "other-value" := by decide
    have hex : isExported "OtherValue" = true := by decide
    cases h1 : tagF.lookup TagEnvironment <;>
      cases h2 : tagF.lookup TagDefault <;>
        cases h3 : tagF.lookup TagRequired <;>
          simp [getDefinitions, getDefinitionsForStruct, extractOneField, buildLeafDef, hIgnF, hFlag, hSwF,
            hvF, hsw, hex, h1, h2, h3] <;>
            repeat' first
              | rfl
              | (split <;> try simp)
  · have hsw : splitWords "OtherValue" "_" = "other_value" := by decide
    have hup : toUpperStr (envPfxOf "" ++ "other_value") = "OTHER_VALUE" := by decide
    have hex : isExported "OtherValue" = true := by decide
    cases h1 : tagE.lookup TagFlag <;>
      cases h2 : tagE.lookup TagDefault <;>
        cases h3 : tagE.lookup TagRequired <;>
          simp [getDefinitions, getDefinitionsForStruct, extractOneField, buildLeafDef, hIgnE, hEnv, hSwE,
            hvE, hsw, hup, hex, h1, h2, h3] <;>
            repeat' first
              | rfl
              | (split <;> try simp)

/-- C2: a required field with no override, flag, environment or default
source makes Load fail with exactly "required field <key> missing value";
with a default annotation added to the same schema, Load succeeds and the
field holds the (coerced) default value. -/
theorem c2_required_error_and_default (c : Configurator) (fp : FlagParseOutcome)
    (env : String → Option String) (hook : DecodeHook)
    (nm : String) (tag tag2 : StructTag) (t : GoType) (dv : String) (w : GoValue)
    (hviper : c.viper = {}) (hname : c.name ≠ "")
    (hex : isExported nm = true)
    (hIgn : (match tag.lookup TagIgnored with | some v => isTrue v | none => false) = false)
    (hFlag : tag.lookup TagFlag = none)
    (hEnv : tag.lookup TagEnvironment = none)
    (hDef : tag.lookup TagDefault = none)
    (rv : String) (hrv : tag.lookup TagRequired = some rv) (hrvT : isTrue rv = true)
    (hIgn2 : (match tag2.lookup TagIgnored with | some v => isTrue v | none => false) = false)
    (hFlag2 : tag2.lookup TagFlag = none)
    (hEnv2 : tag2.lookup TagEnvironment = none)
    (hDef2 : tag2.lookup TagDefault = some dv)
    (hcoerce : loadApplyValue hook t (zeroValue t.kind) dv = .ok w) :
    (load c (.ptrToStruct [(nm, tag, .leaf t (zeroValue t.kind))]) fp env hook).outcome =
      .err ("required field " ++ nm ++ " missing value") ∧
    ((load c (.ptrToStruct [(nm, tag2, .leaf t (zeroValue t.kind))]) fp env hook).outcome = .ok ∧
     targetFields (load c (.ptrToStruct [(nm, tag2, .leaf t (zeroValue t.kind))]) fp env hook).target =
       some [(nm, tag2, .leaf t w)]) := by
  have hz : isZeroValueOfType t.kind (zeroValue t.kind) = true := by simp [isZeroValueOfType]
  have hread : readAtFields [(nm, tag2, GoFieldVal.leaf t (zeroValue t.kind))] [0] =
      some (t, zeroValue t.kind) := rfl
  have hset : setAtFields [(nm, tag2, GoFieldVal.leaf t (zeroValue t.kind))] [0] w =
      [(nm, tag2, GoFieldVal.leaf t w)] := rfl
  refine ⟨?_, ?_, ?_⟩
  · simp [load, hname, hviper, getDefinitions, getDefinitionsForStruct, extractOneField, buildLeafDef,
      hex, hIgn, hFlag, hEnv, hDef, hrv, hrvT, hz, registerDefs, registerDef,
      applyDefs, viperGet, lookupAssoc, keyPfxOf]
  · simp [load, hname, hviper, getDefinitions, getDefinitionsForStruct, extractOneField, buildLeafDef,
      hex, hIgn2, hFlag2, hEnv2, hDef2, hz, registerDefs, registerDef,
      applyDefs, viperGet, lookupAssoc, ViperStore.setDefault, sprintfVVal,
      hread, hset, hcoerce, keyPfxOf]
    cases h3 : tag2.lookup TagRequired with
    | none => simp [h3, hread, hset, hcoerce, sprintfVVal]
    | some rv2 =>
      by_cases h4 : isTrue rv2 = true <;>
        simp [h3, h4, hread, hset, hcoerce, sprintfVVal]
  · simp [load, hname, hviper, getDefinitions, getDefinitionsForStruct, extractOneField, buildLeafDef,
      hex, hIgn2, hFlag2, hEnv2, hDef2, hz, registerDefs, registerDef,
      applyDefs, viperGet, lookupAssoc, ViperStore.setDefault, sprintfVVal,
      hread, hset, hcoerce, targetFields, keyPfxOf]
    cases h3 : tag2.lookup TagRequired with
    | none => simp [h3, hread, hset, hcoerce, sprintfVVal]
    | some rv2 =>
      by_cases h4 : isTrue rv2 = true <;>
        simp [h3, h4, hread, hset, hcoerce, sprintfVVal]

/-- Witness for C2: a required string field named Value errors, and the
same schema with default "default" loads that value. -/
theorem c2_witness :
    (load { name := "program" }
        (.ptrToStruct [("Value", ⟨[("required", "true")]⟩, .leaf stringType (.vString ""))])
        (.ok noFlags) (fun _ => none) trivialHook).outcome =
      .err ("required field " ++ "Value" ++ " missing value") ∧
    ((load { name := "program" }
        (.ptrToStruct [("Value", ⟨[("required", "true"), ("default", "default")]⟩,
          .leaf stringType (.vString ""))])
        (.ok noFlags) (fun _ => none) trivialHook).outcome = .ok ∧
     targetFields (load { name := "program" }
        (.ptrToStruct [("Value", ⟨[("required", "true"), ("default", "default")]⟩,
          .leaf stringType (.vString ""))])
        (.ok noFlags) (fun _ => none) trivialHook).target =
       some [("Value", ⟨[("required", "true"), ("default", "default")]⟩,
         .leaf stringType (.vString "default"))]) :=
  c2_required_error_and_default { name := "program" } (.ok noFlags) (fun _ => none) trivialHook
    "Value" ⟨[("required", "true")]⟩ ⟨[("required", "true"), ("default", "default")]⟩
    stringType "default" (.vString "default")
    rfl (by decide) (by decide) (by decide) (by decide) (by decide) (by decide)
    "true" (by decide) (by decide)
    (by decide) (by decide) (by decide) (by decide) rfl

/-- C5 counterexample: int16 is a signed integer kind, yet processField
leaves an int16 field unmodified instead of parsing the source string and
storing the value — coercing "5" into a zero int16 field yields the old
zero, not 5, and reports no error. -/
theorem c5_counterexample_int16 :
    processField trivialHook int16Type (.vInt 0) "5" = .ok (.vInt 0) ∧
    (Except.ok (GoValue.vInt 0) : Except String GoValue) ≠ .ok (.vInt 5) :=
  ⟨rfl, by decide⟩

/-- C5 (amended): for the signed integer kinds in the coercion switch
(int, int8, int32, int64 — int16 is absent and left untouched), value
coercion is exactly ParseInt with base 0 at the type's bit width, except
that a time.Duration typed field parses as a duration literal; the
unsigned kinds in the switch (uint, uint8, uint32, uint64 — not uint16)
parse via ParseUint at bit width; parsed values are stored and parse
failures surface the conversion error unchanged. -/
theorem c5_integer_coercion (t : GoType) (cur : GoValue) (s : String) (hook : DecodeHook)
    (hdec : canDecodeType t = false) :
    ((t.kind = GoKind.kInt ∨ t.kind = GoKind.kInt8 ∨ t.kind = GoKind.kInt32 ∨
        t.kind = GoKind.kInt64) → isDurationType t = false →
      processField hook t cur s =
        match parseIntGo s (goBits t.kind) with
        | .error e => .error e
        | .ok n => .ok (.vInt n)) ∧
    (isDurationType t = true →
      processField hook t cur s =
        match parseDuration s with
        | .error e => .error e
        | .ok d => .ok (.vInt d)) ∧
    ((t.kind = GoKind.kUint ∨ t.kind = GoKind.kUint8 ∨ t.kind = GoKind.kUint32 ∨
        t.kind = GoKind.kUint64) →
      processField hook t cur s =
        match parseUintGo s (goBits t.kind) with
        | .error e => .error e
        | .ok n => .ok (.vUint n)) := by
  obtain ⟨k, nm, pp, dec, tum⟩ := t
  simp only [canDecodeType, Bool.or_eq_false_iff] at hdec
  obtain ⟨hd, ht⟩ := hdec
  subst hd
  subst ht
  refine ⟨?_, ?_, ?_⟩
  · intro hk hdur
    rcases hk with h | h | h | h <;> (simp only at h; subst h) <;>
      simp [processField, canDecodeType, hdur]
  · intro hdur
    have hk : k = GoKind.kInt64 := by
      simp [isDurationType] at hdur
      exact hdur.1
    subst hk
    simp [processField, canDecodeType, hdur]
  · intro hk
    rcases hk with h | h | h | h <;> (simp only at h; subst h) <;>
      simp [processField, canDecodeType]

/-- Witness for C5: a hex literal parses into int8, a duration literal
parses into time.Duration, and an out-of-range unsigned literal surfaces
the range error. -/
theorem c5_witness :
    processField trivialHook int8Type (.vInt 0) "0x7f" = .ok (.vInt 127) ∧
    processField trivialHook durationType (.vInt 0) "10s" = .ok (.vInt 10000000000) ∧
    processField trivialHook { kind := .kUint8, name := "uint8", pkgPath := "" }
      (.vUint 0) "256" = .error (numErrorMsg "ParseUint" "256" "value out of range") :=
  ⟨((c5_integer_coercion int8Type (.vInt 0) "0x7f" trivialHook (by decide)).1
      (by decide) (by decide)).trans (by decide),
   ((c5_integer_coercion durationType (.vInt 0) "10s" trivialHook (by decide)).2.1
      (by decide)).trans (by decide),
   ((c5_integer_coercion { kind := .kUint8, name := "uint8", pkgPath := "" }
      (.vUint 0) "256" trivialHook (by decide)).2.2 (by decide)).trans (by decide)⟩

/-- C8 counterexample: the usage renderer's environment-variable line for a
bool-typed definition does carry a type hint after the alias, contradicting
the claim that boolean lines show none in both blocks. -/
theorem c8_counterexample_env_bool_hint :
    envLineOf ""
      { key := "Value", fieldType := boolType, fieldPath := [0],
        hasEnv := true, envAlias := "VALUE", usage := "u" } =
      "      VALUE bool" ++ (⟨[usageMarker]⟩ : String) ++ "u" ∧
    "      VALUE bool" ++ (⟨[usageMarker]⟩ : String) ++ "u" ≠
      "      VALUE" ++ (⟨[usageMarker]⟩ : String) ++ "u" :=
  ⟨rfl, by decide⟩

/-- C8 (amended): for definitions whose type name is "bool" the flag block
line shows no type hint after the alias, while the environment block line
does show the hint "bool" (its switch has no bool case); and for every
definition with a default, the trailing annotation is quoted when the type
name is "string" and bare otherwise. -/
theorem c8_usage_lines (d : fieldDefinition) (envPfx : String) :
    (d.fieldType.name = "bool" →
      flagLineOf d = "      --" ++ d.flagAlias ++ (⟨[usageMarker]⟩ : String) ++
        d.usage ++ defaultAnnot d ∧
      envLineOf envPfx d = "      " ++ mergeWithEnvPfx envPfx d.envAlias ++ " bool" ++
        (⟨[usageMarker]⟩ : String) ++ d.usage ++ defaultAnnot d) ∧
    (d.hasDefault = true →
      defaultAnnot d =
        (if d.fieldType.name = "string" then " (default " ++ goQuote d.defaultValue ++ ")"
         else " (default " ++ d.defaultValue ++ ")")) := by
  constructor
  · intro hb
    constructor
    · simp [flagLineOf, flagTypeHint, hb, String.append_assoc]
    · simp [envLineOf, envTypeHint, hb, String.append_assoc]
  · intro hd
    simp [defaultAnnot, hd]

/-- Witness for C8 at a bool definition with a bare default and a string
definition with a quoted default. -/
theorem c8_witness :
    flagLineOf
      { key := "Value", fieldType := boolType, fieldPath := [0], hasFlag := true,
        flagAlias := "value", hasEnv := true, envAlias := "VALUE", hasDefault := true,
        defaultValue := "true", usage := "u" } =
      "      --value" ++ (⟨[usageMarker]⟩ : String) ++ "u (default true)" ∧
    envLineOf ""
      { key := "Value", fieldType := boolType, fieldPath := [0], hasFlag := true,
        flagAlias := "value", hasEnv := true, envAlias := "VALUE", hasDefault := true,
        defaultValue := "true", usage := "u" } =
      "      VALUE bool" ++ (⟨[usageMarker]⟩ : String) ++ "u (default true)" ∧
    defaultAnnot
      { key := "S", fieldType := stringType, fieldPath := [0], hasDefault := true,
        defaultValue := "v" } = " (default \"v\")" :=
  ⟨((c8_usage_lines
      { key := "Value", fieldType := boolType, fieldPath := [0], hasFlag := true,
        flagAlias := "value", hasEnv := true, envAlias := "VALUE", hasDefault := true,
        defaultValue := "true", usage := "u" } "").1 rfl).1.trans (by decide),
   ((c8_usage_lines
      { key := "Value", fieldType := boolType, fieldPath := [0], hasFlag := true,
        flagAlias := "value", hasEnv := true, envAlias := "VALUE", hasDefault := true,
        defaultValue := "true", usage := "u" } "").1 rfl).2.trans (by decide),
   ((c8_usage_lines
      { key := "S", fieldType := stringType, fieldPath := [0], hasDefault := true,
        defaultValue := "v" } "").2 rfl).trans (by decide)⟩

/-- Witness for C7 with concrete tags. -/
theorem c7_witness :
    (getDefinitions [("OtherValue",
        ⟨[("flag", ""), ("split_words", "true")]⟩, .leaf stringType (.vString ""))]).map
      (fun d => d.flagAlias) = ["other-value"] ∧
    (getDefinitions [("OtherValue",
        ⟨[("env", ""), ("split_words", "true")]⟩, .leaf stringType (.vString ""))]).map
      (fun d => d.envAlias) = ["OTHER_VALUE"] :=
  c7_split_words_aliases ⟨[("flag", ""), ("split_words", "true")]⟩
    ⟨[("env", ""), ("split_words", "true")]⟩ "true" "true" stringType (.vString "")
    (by decide) (by decide) (by decide) (by decide)
    (by decide) (by decide) (by decide) (by decide)

/-- C9 counterexample: the keys of the extracted field definitions are not
pairwise distinct for every schema — two sub-structs carrying the same
prefix annotation "sub" both emit the key "sub.Value". -/
theorem c9_counterexample_duplicate_prefix :
    ((getDefinitions
      [("A", ⟨[(TagPrefixKey, "sub")]⟩, .strct [("Value", ⟨[]⟩, .leaf stringType (.vString ""))]),
       ("B", ⟨[(TagPrefixKey, "sub")]⟩,
        .strct [("Value", ⟨[]⟩, .leaf stringType (.vString ""))])]).map
      (fun d => d.key) = ["sub.Value", "sub.Value"]) ∧
    ¬ (((getDefinitions
      [("A", ⟨[(TagPrefixKey, "sub")]⟩, .strct [("Value", ⟨[]⟩, .leaf stringType (.vString ""))]),
       ("B", ⟨[(TagPrefixKey, "sub")]⟩,
        .strct [("Value", ⟨[]⟩, .leaf stringType (.vString ""))])]).map
      (fun d => d.key)).Nodup) := by
  constructor
  · decide
  · decide

/-- C9 (amended): for every schema whose levels contribute nonempty,
dot-free, pairwise-distinct key segments (wfFields), the keys of the
extracted field definitions are pairwise distinct; and extraction is
deterministic — two equal zero-valued instances of the same schema yield
identical ordered lists of keys, flag aliases and environment aliases. -/
theorem c9_keys_unique_and_deterministic
    (fields fields2 : List (String × StructTag × GoFieldVal))
    (hwf : wfFields fields = true) (heq : fields = fields2) :
    ((getDefinitions fields).map (fun d => d.key)).Nodup ∧
    (getDefinitions fields).map (fun d => (d.key, d.flagAlias, d.envAlias)) =
      (getDefinitions fields2).map (fun d => (d.key, d.flagAlias, d.envAlias)) := by
  subst heq
  exact ⟨(level_keys_shape fields "" [] 0 hwf).1, rfl⟩

/-- C9 witness: the amended uniqueness and determinism at a concrete
two-level schema. -/
theorem c9_witness :
    ((getDefinitions
      [("Value", ⟨[]⟩, .leaf stringType (.vString "")),
       ("Sub", ⟨[]⟩, .strct [("Value", ⟨[]⟩, .leaf intType (.vInt 0))])]).map
      (fun d => d.key)).Nodup ∧
    (getDefinitions
      [("Value", ⟨[]⟩, .leaf stringType (.vString "")),
       ("Sub", ⟨[]⟩, .strct [("Value", ⟨[]⟩, .leaf intType (.vInt 0))])]).map
      (fun d => (d.key, d.flagAlias, d.envAlias)) =
    (getDefinitions
      [("Value", ⟨[]⟩, .leaf stringType (.vString "")),
       ("Sub", ⟨[]⟩, .strct [("Value", ⟨[]⟩, .leaf intType (.vInt 0))])]).map
      (fun d => (d.key, d.flagAlias, d.envAlias)) :=
  c9_keys_unique_and_deterministic
    [("Value", ⟨[]⟩, .leaf stringType (.vString "")),
     ("Sub", ⟨[]⟩, .strct [("Value", ⟨[]⟩, .leaf intType (.vInt 0))])]
    [("Value", ⟨[]⟩, .leaf stringType (.vString "")),
     ("Sub", ⟨[]⟩, .strct [("Value", ⟨[]⟩, .leaf intType (.vInt 0))])]
    (by decide) rfl

end Nest
